import Mathlib

/-!
# Verification of the routing-and-time planning core

This file shallowly embeds the algorithmic core of the repository — the
multi-day route planner in `src/src/utils/clustering.ts` together with the
proximity-grouping stages of the two earlier revisions of that module
(`src/unnamed/part_000`, radius policy; `src/unnamed/part_001`, street
policy) — and proves or refutes the testable properties stated in the
design document.

Modelling conventions:
* JavaScript numbers are modelled by an arbitrary `LinearOrderedField α`
  (instantiated at `ℝ` for the haversine metric and at `ℚ` when a concrete
  run has to be evaluated by `decide`).
* The global `calculateDistance` used by every routine is passed in as an
  explicit parameter `dist : α → α → α → α → α` (lat1 lng1 lat2 lng2), so
  the structural theorems below hold for every metric, in particular for
  the haversine metric over `ℝ` defined at the end of the definitions.
* `Math.random()` is modelled by an injectable stream `rnd : ℕ → α`,
  consumed two values per randomly initialised centroid, as the design
  document requires the randomness source to be injectable.
* A customer record is modelled by its planning-relevant fields
  `{id, lat, lng}`; the `data` payload carried by the source is the
  customer record itself (same id and coordinates) and is therefore not
  duplicated in the model.
* `id` values (strings in the source, compared only with `===`) are
  modelled by `ℕ`.
-/

set_option linter.unusedVariables false
set_option linter.unusedSectionVars false

/-- A latitude/longitude pair (the source's `{lat, lng}` object). -/
structure Coord (α : Type) where
  lat : α
  lng : α
  deriving DecidableEq, Repr

/-- The source's `Point` record: `{id, lat, lng, data}` with the opaque
`data` payload dropped (it is the customer record itself, carrying the same
id and coordinates). -/
structure Point (α : Type) where
  id : ℕ
  lat : α
  lng : α
  deriving DecidableEq, Repr

/-- The source's `Cluster` record: `{id, centroid, points}`. -/
structure Cluster (α : Type) where
  id : ℕ
  centroid : Coord α
  points : List (Point α)
  deriving DecidableEq, Repr

/-- Bounding box, the result of the source's `getBounds`. -/
structure Bounds (α : Type) where
  minLat : α
  maxLat : α
  minLng : α
  maxLng : α
  deriving DecidableEq, Repr

/-- `List.map` with the element's position passed to the function,
starting from a given index (used to model `array.map((x, i) => ...)`). -/
def mapIdxFrom {β γ : Type*} (f : ℕ → β → γ) : ℕ → List β → List γ
  | _, [] => []
  | k, b :: bs => f k b :: mapIdxFrom f (k + 1) bs

section Clustering

variable {α : Type} [LinearOrderedField α]

/-- Fallback cluster for (never reached) out-of-range list indexing. -/
def dummyCluster : Cluster α := ⟨0, ⟨0, 0⟩, []⟩

/-- Binary minimum by a single comparison, as `Math.min` computes it on
non-NaN arguments. -/
def jsMin (a b : α) : α := if a < b then a else b

/-- Binary maximum by a single comparison, as `Math.max` computes it on
non-NaN arguments. -/
def jsMax (a b : α) : α := if a < b then b else a

/-- `getBounds` of `clustering.ts`: the source folds `Math.min`/`Math.max`
starting from `±Infinity`; over a non-empty list this equals folding from
the first point's coordinates, which is how it is written here (the
function is only ever applied to non-empty lists). -/
def getBounds (ps : List (Point α)) : Bounds α :=
  match ps with
  | [] => ⟨0, 0, 0, 0⟩
  | p :: rest =>
      rest.foldl
        (fun b q =>
          ⟨jsMin b.minLat q.lat, jsMax b.maxLat q.lat,
           jsMin b.minLng q.lng, jsMax b.maxLng q.lng⟩)
        ⟨p.lat, p.lat, p.lng, p.lng⟩

/-- The scan inside the k-means assignment loop: running best index and
best distance, updated only on a strictly smaller distance (so the first
candidate wins exact ties, as in the source). -/
def nearestAux (dist : α → α → α → α → α) (p : Point α) :
    List (Coord α) → ℕ → ℕ → α → ℕ
  | [], _, best, _ => best
  | c :: rest, i, best, bestD =>
      let d := dist p.lat p.lng c.lat c.lng
      if d < bestD then nearestAux dist p rest (i + 1) i d
      else nearestAux dist p rest (i + 1) best bestD

/-- Index of the centroid nearest to `p` (the source seeds the scan with
`minDistance = Infinity` and index `0`; the first comparison then always
succeeds, which equals seeding with centroid `0`'s distance). -/
def nearestClusterIndex (dist : α → α → α → α → α) (centroids : List (Coord α))
    (p : Point α) : ℕ :=
  match centroids with
  | [] => 0
  | c :: rest => nearestAux dist p rest 1 0 (dist p.lat p.lng c.lat c.lng)

/-- One k-means assignment round: fresh clusters `{id: index, centroid,
points: []}` and each point pushed (in input order) onto the cluster of its
nearest centroid — pushing in input order equals filtering the input by
nearest index. -/
def assignClusters (dist : α → α → α → α → α) (points : List (Point α))
    (centroids : List (Coord α)) : List (Cluster α) :=
  mapIdxFrom
    (fun k c => ⟨k, c, points.filter (fun p => nearestClusterIndex dist centroids p == k)⟩)
    0 centroids

/-- Arithmetic mean of the members' latitudes (`reduce` from 0 then divide
by the length). -/
def meanLat (ps : List (Point α)) : α :=
  (ps.foldl (fun s p => s + p.lat) 0) / (ps.length : α)

/-- Arithmetic mean of the members' longitudes. -/
def meanLng (ps : List (Point α)) : α :=
  (ps.foldl (fun s p => s + p.lng) 0) / (ps.length : α)

/-- Centroid update step of k-means: the mean of the members, or the old
centroid for a cluster with no points. -/
def newCentroids (clusters : List (Cluster α)) : List (Coord α) :=
  clusters.map fun cl =>
    if cl.points.isEmpty then cl.centroid else ⟨meanLat cl.points, meanLng cl.points⟩

/-- Convergence test: every centroid moved less than 0.1 (miles) between
rounds. -/
def kmeansConverged (dist : α → α → α → α → α) (old fresh : List (Coord α)) : Bool :=
  (old.zip fresh).all fun cc =>
    decide (dist cc.1.lat cc.1.lng cc.2.lat cc.2.lng < (1 : α) / 10)

/-- The k-means `do { ... } while (true)` loop, `fuel` = iterations still
allowed including the current one (the source caps at `maxIterations = 20`
and the loop body always runs at least once).  The loop returns the
clusters assigned with the centroids of the round in which it stopped. -/
def kmeansLoop (dist : α → α → α → α → α) (points : List (Point α)) :
    ℕ → List (Coord α) → List (Cluster α)
  | 0, centroids => assignClusters dist points centroids
  | fuel + 1, centroids =>
      let clusters := assignClusters dist points centroids
      let fresh := newCentroids clusters
      if fuel == 0 || kmeansConverged dist centroids fresh then clusters
      else kmeansLoop dist points fuel fresh

/-- A randomly drawn centroid inside the bounding box; draw `k` consumes
`rnd (2*k)` for the latitude and `rnd (2*k+1)` for the longitude (the
source calls `Math.random()` once per coordinate). -/
def randCentroid (rnd : ℕ → α) (b : Bounds α) (k : ℕ) : Coord α :=
  ⟨b.minLat + (b.maxLat - b.minLat) * rnd (2 * k),
   b.minLng + (b.maxLng - b.minLng) * rnd (2 * k + 1)⟩

/-- Centroid initialisation: with a home base and more than one day the
first centroid is the home base and the rest are random in the bounding
box; otherwise all are random in the bounding box. -/
def initCentroids (rnd : ℕ → α) (points : List (Point α)) (numDays : ℕ)
    (homeBase : Option (Coord α)) : List (Coord α) :=
  match homeBase with
  | some hb =>
      if 1 < numDays then
        ⟨hb.lat, hb.lng⟩ :: (List.range (numDays - 1)).map (randCentroid rnd (getBounds points))
      else (List.range numDays).map (randCentroid rnd (getBounds points))
  | none => (List.range numDays).map (randCentroid rnd (getBounds points))

/-- `performKMeansClustering` of `clustering.ts`. -/
def performKMeansClustering (dist : α → α → α → α → α) (rnd : ℕ → α)
    (points : List (Point α)) (numDays : ℕ) (homeBase : Option (Coord α)) :
    List (Cluster α) :=
  kmeansLoop dist points 20 (initCentroids rnd points numDays homeBase)

/-- The scan inside `optimizeDayRoute`'s while body: running nearest index
and distance over the unvisited list, strict `<` so the first candidate
wins exact ties. -/
def nearestPointAux (dist : α → α → α → α → α) (curLat curLng : α) :
    List (Point α) → ℕ → ℕ → α → ℕ
  | [], _, best, _ => best
  | p :: rest, i, best, bestD =>
      let d := dist curLat curLng p.lat p.lng
      if d < bestD then nearestPointAux dist curLat curLng rest (i + 1) i d
      else nearestPointAux dist curLat curLng rest (i + 1) best bestD

/-- Index of the unvisited customer nearest to the current position (the
source seeds the scan with index 0's distance explicitly). -/
def nearestPointIndex (dist : α → α → α → α → α) (curLat curLng : α)
    (ps : List (Point α)) : ℕ :=
  match ps with
  | [] => 0
  | p :: rest => nearestPointAux dist curLat curLng rest 1 0 (dist curLat curLng p.lat p.lng)

/-- The nearest-neighbour walk (`while (unvisited.length > 0)`), with
`fuel` an upper bound on the remaining steps; every caller passes the
length of the list, which is exactly the number of iterations the source
performs (each iteration `splice`s one element out). -/
def nnWalk (dist : α → α → α → α → α) : ℕ → α → α → List (Point α) → List (Point α)
  | 0, _, _, _ => []
  | fuel + 1, curLat, curLng, unvisited =>
      match unvisited with
      | [] => []
      | p0 :: _ =>
          let i := nearestPointIndex dist curLat curLng unvisited
          let c := unvisited.getD i p0
          c :: nnWalk dist fuel c.lat c.lng (unvisited.eraseIdx i)

/-- `optimizeDayRoute` of `clustering.ts`: identity without a home base or
on an empty list, otherwise the nearest-neighbour walk from the home
base. -/
def optimizeDayRoute (dist : α → α → α → α → α) (customers : List (Point α))
    (homeBase : Option (Coord α)) : List (Point α) :=
  match homeBase with
  | none => customers
  | some hb =>
      if customers.isEmpty then customers
      else nnWalk dist customers.length hb.lat hb.lng customers

/-- Leg times of a route: each leg contributes `distance * 2` minutes
(2 minutes per mile); returns the accumulated time together with the final
position. -/
def legsTimeAux (dist : α → α → α → α → α) : α → α → List (Point α) → α × α × α
  | curLat, curLng, [] => (0, curLat, curLng)
  | curLat, curLng, c :: rest =>
      let d := dist curLat curLng c.lat c.lng * 2
      let t := legsTimeAux dist c.lat c.lng rest
      (d + t.1, t.2)

/-- `calculateClusterDriveTime` of `clustering.ts`: 0 for an empty cluster,
otherwise the legs of the nearest-neighbour route from the home base plus
the return leg, at 2 minutes per mile. -/
def calculateClusterDriveTime (dist : α → α → α → α → α) (homeBase : Coord α)
    (cluster : Cluster α) : α :=
  if cluster.points.isEmpty then 0
  else
    let route := optimizeDayRoute dist cluster.points (some homeBase)
    let t := legsTimeAux dist homeBase.lat homeBase.lng route
    t.1 + dist t.2.1 t.2.2 homeBase.lat homeBase.lng * 2

/-- `calculateTotalDriveTime`: sum of the per-cluster drive times. -/
def calculateTotalDriveTime (dist : α → α → α → α → α) (homeBase : Coord α)
    (clusters : List (Cluster α)) : α :=
  clusters.foldl (fun total cl => total + calculateClusterDriveTime dist homeBase cl) 0

/-- The inner index scan of `findBestCustomerToMove`: the first cluster
index (skipping the cluster with the scanned cluster's own id) whose
current drive time is strictly smaller (`lighten = true`) or strictly
larger (`lighten = false`, the source's `'heavier'`) than the scanned
cluster's current drive time. -/
def scanTargetAux (dist : α → α → α → α → α) (homeBase : Coord α) (selfId : ℕ)
    (current : α) (lighten : Bool) : ℕ → List (Cluster α) → Option ℕ
  | _, [] => none
  | i, cl :: rest =>
      if cl.id == selfId then scanTargetAux dist homeBase selfId current lighten (i + 1) rest
      else
        let t := calculateClusterDriveTime dist homeBase cl
        if lighten = true ∧ t < current then some i
        else if lighten = false ∧ current < t then some i
        else scanTargetAux dist homeBase selfId current lighten (i + 1) rest

/-- `findBestCustomerToMove` of `clustering.ts`: for each customer of the
cluster in order, scan all clusters for the first qualifying target; the
first customer for which the scan succeeds is returned (the inner scan
does not depend on the customer, exactly as in the source). -/
def findBestCustomerToMove (dist : α → α → α → α → α) (homeBase : Coord α)
    (cluster : Cluster α) (allClusters : List (Cluster α)) (lighten : Bool) :
    Option (Point α × ℕ) :=
  let current := calculateClusterDriveTime dist homeBase cluster
  cluster.points.findSome? fun c =>
    (scanTargetAux dist homeBase cluster.id current lighten 0 allClusters).map fun j => (c, j)

/-- `updateClusterCentroid`: recompute the centroid as the mean of the
members; a cluster with no points is returned unchanged. -/
def updateClusterCentroid (cluster : Cluster α) : Cluster α :=
  if cluster.points.isEmpty then cluster
  else { cluster with centroid := ⟨meanLat cluster.points, meanLng cluster.points⟩ }

/-- `moveCustomerBetweenClusters`: filter every point with the customer's
id out of the source cluster, push the customer onto the target cluster,
then recompute both centroids (in the source's order). -/
def moveCustomerBetweenClusters (clusters : List (Cluster α)) (fromIdx toIdx : ℕ)
    (customer : Point α) : List (Cluster α) :=
  let f := clusters.getD fromIdx dummyCluster
  let cs1 := clusters.set fromIdx { f with points := f.points.filter (fun p => !(p.id == customer.id)) }
  let t := cs1.getD toIdx dummyCluster
  let cs2 := cs1.set toIdx { t with points := t.points ++ [customer] }
  let cs3 := cs2.set fromIdx (updateClusterCentroid (cs2.getD fromIdx dummyCluster))
  cs3.set toIdx (updateClusterCentroid (cs3.getD toIdx dummyCluster))

/-- Body of the balancing `for` loop at index `i`: a cluster above the
band moves its first movable customer to the first strictly lighter
cluster; a cluster below the band asks `findBestCustomerToMove` in the
`'heavier'` direction and applies the move with source and target swapped
(exactly as the source does).  The `Bool` is the loop's `balanced` flag. -/
def balanceStep (dist : α → α → α → α → α) (homeBase : Coord α) (target tol : α)
    (st : List (Cluster α) × Bool) (i : ℕ) : List (Cluster α) × Bool :=
  let cs := st.1
  let cl := cs.getD i dummyCluster
  let t := calculateClusterDriveTime dist homeBase cl
  if target + tol < t then
    match findBestCustomerToMove dist homeBase cl cs true with
    | some cj => (moveCustomerBetweenClusters cs i cj.2 cj.1, false)
    | none => st
  else if t < target - tol then
    match findBestCustomerToMove dist homeBase cl cs false with
    | some cj => (moveCustomerBetweenClusters cs cj.2 i cj.1, false)
    | none => st
  else st

/-- One pass of the balancing loop over all cluster indices, starting with
`balanced = true`. -/
def balancePass (dist : α → α → α → α → α) (homeBase : Coord α) (target tol : α)
    (cs : List (Cluster α)) : List (Cluster α) × Bool :=
  (List.range cs.length).foldl (balanceStep dist homeBase target tol) (cs, true)

/-- The `while (!balanced && attempts < maxAttempts)` loop, `fuel` =
remaining attempts (20 at the top call). -/
def balanceLoop (dist : α → α → α → α → α) (homeBase : Coord α) (target tol : α) :
    ℕ → List (Cluster α) → List (Cluster α)
  | 0, cs => cs
  | fuel + 1, cs =>
      let r := balancePass dist homeBase target tol cs
      if r.2 then r.1 else balanceLoop dist homeBase target tol fuel r.1

/-- The `reduce` that picks the most populated cluster among the populated
snapshot, by current length; only a strictly larger length replaces the
running maximum, so the earliest maximum wins. -/
def mostPopulatedIdx (cs : List (Cluster α)) : List ℕ → ℕ
  | [] => 0
  | j :: rest =>
      rest.foldl
        (fun best k =>
          if (cs.getD best dummyCluster).points.length < (cs.getD k dummyCluster).points.length
          then k else best)
        j

/-- One iteration of `balanceEmptyClusters`'s `forEach`: skip if the
populated snapshot is empty; otherwise pop the last point of the currently
most populated snapshot cluster (only if it still has more than one point)
and push it onto the empty cluster, whose centroid becomes that point. -/
def repairOne (cs : List (Cluster α)) (popIdxs : List ℕ) (e : ℕ) : List (Cluster α) :=
  if popIdxs.isEmpty then cs
  else
    let j := mostPopulatedIdx cs popIdxs
    let donor := cs.getD j dummyCluster
    if 1 < donor.points.length then
      match donor.points.getLast? with
      | some pt =>
          let cs1 := cs.set j { donor with points := donor.points.dropLast }
          let tgt := cs1.getD e dummyCluster
          cs1.set e { tgt with points := tgt.points ++ [pt], centroid := ⟨pt.lat, pt.lng⟩ }
      | none => cs
    else cs

/-- `balanceEmptyClusters` of `clustering.ts`: snapshot the empty and the
populated (more than one point) clusters, then repair each empty cluster
in turn from the currently most populated snapshot cluster. -/
def balanceEmptyClusters (cs : List (Cluster α)) : List (Cluster α) :=
  let emptyIdxs := (List.range cs.length).filter fun k => (cs.getD k dummyCluster).points.isEmpty
  let popIdxs := (List.range cs.length).filter fun k => 1 < (cs.getD k dummyCluster).points.length
  emptyIdxs.foldl (fun acc e => repairOne acc popIdxs e) cs

/-- `balanceClustersByDriveTime` of `clustering.ts`: without a home base
the clusters are returned unchanged (the empty-cluster repair is *not*
reached); otherwise the target per-day drive time and the 15% tolerance
are computed once from the initial state, the balancing loop runs up to 20
attempts, and the empty-cluster repair runs at the end. -/
def balanceClustersByDriveTime (dist : α → α → α → α → α)
    (homeBase : Option (Coord α)) (clusters : List (Cluster α)) : List (Cluster α) :=
  match homeBase with
  | none => clusters
  | some hb =>
      let target := calculateTotalDriveTime dist hb clusters / (clusters.length : α)
      let tol := target * (15 / 100 : α)
      balanceEmptyClusters (balanceLoop dist hb target tol 20 clusters)

/-- `clusterCustomers` of `clustering.ts` (the spec's `planDays`): empty
result for an empty input or `numDays ≤ 0`; one singleton cluster per
customer when there are at most `numDays` customers; otherwise k-means
followed by drive-time balancing.  The source's mapping of customer
records to points preserves id and coordinates, so it is the identity
here. -/
def clusterCustomers (dist : α → α → α → α → α) (rnd : ℕ → α)
    (customers : List (Point α)) (numDays : ℤ) (homeBase : Option (Coord α)) :
    List (Cluster α) :=
  if customers.length = 0 ∨ numDays ≤ 0 then []
  else if (customers.length : ℤ) ≤ numDays then
    mapIdxFrom (fun i p => ⟨i, ⟨p.lat, p.lng⟩, [p]⟩) 0 customers
  else
    balanceClustersByDriveTime dist homeBase
      (performKMeansClustering dist rnd customers numDays.toNat homeBase)

end Clustering

/-! ## Radius-policy proximity grouping (`src/unnamed/part_000`) -/

/-- The source's `HouseGroup` record; the id string `"group-k"` is
modelled by the running index `k`. -/
structure HouseGroup (α : Type) where
  id : ℕ
  customers : List (Point α)
  centroid : Coord α
  deriving DecidableEq, Repr

section HouseGroups

variable {α : Type} [LinearOrderedField α]

/-- `HOUSE_GROUP_DISTANCE = 0.1` miles. -/
def HOUSE_GROUP_DISTANCE : α := 1 / 10

/-- Centroid of a group: arithmetic mean of the member coordinates. -/
def centroidOf (ps : List (Point α)) : Coord α := ⟨meanLat ps, meanLng ps⟩

/-- The inner `forEach` of `identifyHouseGroups` for seed `point`: every
not-yet-used point within `HOUSE_GROUP_DISTANCE` of the seed is appended
to the group and marked used, in input order.  The source scans the whole
points array, but every point before the seed is already used when the
seed is reached, so scanning the remaining suffix is equivalent. -/
def houseGroupScan (dist : α → α → α → α → α) (seed : Point α)
    (rest : List (Point α)) (used : List ℕ) : List (Point α) × List ℕ :=
  rest.foldl
    (fun st q =>
      if st.2.contains q.id then st
      else if dist seed.lat seed.lng q.lat q.lng ≤ HOUSE_GROUP_DISTANCE then
        (st.1 ++ [q], st.2 ++ [q.id])
      else st)
    ([seed], used ++ [seed.id])

/-- The outer `forEach` of `identifyHouseGroups`: each unused point seeds a
group consisting of itself followed by all unused points within the radius
of the seed. -/
def identifyHouseGroupsAux (dist : α → α → α → α → α) :
    List (Point α) → List ℕ → List (List (Point α))
  | [], _ => []
  | p :: rest, used =>
      if used.contains p.id then identifyHouseGroupsAux dist rest used
      else
        let st := houseGroupScan dist p rest used
        st.1 :: identifyHouseGroupsAux dist rest st.2

/-- `identifyHouseGroups` of `src/unnamed/part_000`: first-unused-first
seed selection, fixed radius, centroid = mean of the members. -/
def identifyHouseGroups (dist : α → α → α → α → α) (points : List (Point α)) :
    List (HouseGroup α) :=
  mapIdxFrom (fun k g => ⟨k, g, centroidOf g⟩) 0 (identifyHouseGroupsAux dist points [])

end HouseGroups

/-! ## Street-policy proximity grouping (`src/unnamed/part_001`) -/

/-- A point as used by the street policy: the `data.address` text is
planning-relevant there. -/
structure APoint (α : Type) where
  id : ℕ
  lat : α
  lng : α
  address : String
  deriving DecidableEq, Repr

/-- A street group (`HouseGroup` of `part_001`); the id string
`"group-k"` is modelled by the running index `k`. -/
structure StreetGroup (α : Type) where
  id : ℕ
  customers : List (APoint α)
  centroid : Coord α
  deriving DecidableEq, Repr

/-- ASCII lower-casing, as `String.prototype.toLowerCase` acts on the
ASCII addresses at hand. -/
def lowerChar (c : Char) : Char :=
  if 'A' ≤ c ∧ c ≤ 'Z' then Char.ofNat (c.toNat + 32) else c

/-- The whitespace class of `String.prototype.trim` and `\s`, restricted
to the ASCII whitespace occurring in addresses. -/
def isSpaceCh (c : Char) : Bool :=
  c == ' ' || c == '\t' || c == '\n' || c == '\r'

/-- Strip leading and trailing whitespace. -/
def trimChars (cs : List Char) : List Char :=
  ((cs.dropWhile isSpaceCh).reverse.dropWhile isSpaceCh).reverse

/-- `parseInt` on a non-empty run of decimal digits. -/
def digitsVal (ds : List Char) : ℕ :=
  ds.foldl (fun n c => 10 * n + (c.toNat - 48)) 0

/-- Length taken by the lazy group `(.+?)` of the source's regex
`^(\d+)\s+(.+?)(?:\s*,|$)`: the smallest `k ≥ 1` after which the remainder
is empty (`$`) or consists of zero or more spaces followed by a comma. -/
def streetTakeLen (cs : List Char) : ℕ :=
  ((List.range' 1 cs.length).find? fun k =>
      let rest := cs.drop k
      rest.isEmpty || ((rest.dropWhile isSpaceCh).head? == some ',')).getD cs.length

/-- The directional words of the source's normalisation regexes, in the
source's alternation order. -/
def dirWords : List (List Char) :=
  ["north", "south", "east", "west", "n", "s", "e", "w"].map String.toList

/-- The street-type suffix words, in the source's alternation order. -/
def roadWords : List (List Char) :=
  ["st", "street", "ave", "avenue", "rd", "road", "dr", "drive", "ln", "lane",
   "blvd", "boulevard", "ct", "court", "pl", "place", "way", "cir",
   "circle"].map String.toList

/-- `replace(/^(w1|w2|...)\s+/, '')`: if the text starts with one of the
words followed by at least one space, drop the word and the following run
of spaces (the first word in alternation order whose whole alternative
matches wins, exactly as the regex engine backtracks). -/
def stripLeadWord (ws : List (List Char)) (cs : List Char) : List Char :=
  match ws.find? (fun w =>
      cs.take w.length == w && ((cs.drop w.length).head?.map isSpaceCh).getD false) with
  | some w => (cs.drop w.length).dropWhile isSpaceCh
  | none => cs

/-- `replace(/\s+(w1|w2|...)$/, '')`: if the text ends with one of the
words preceded by at least one space, drop the word and the preceding run
of spaces.  A regex match must end at `$`, so only the final space-run
plus final word can match, and the first listed word equal to that final
word wins — the same word the per-word test below finds. -/
def stripTailWord (ws : List (List Char)) (cs : List Char) : List Char :=
  let r := cs.reverse
  match ws.find? (fun w =>
      r.take w.length == w.reverse && ((r.drop w.length).head?.map isSpaceCh).getD false) with
  | some w => ((r.drop w.length).dropWhile isSpaceCh).reverse
  | none => cs

/-- `parseAddress` of `src/unnamed/part_001`: lower-case and trim, match
`^(\d+)\s+(.+?)(?:\s*,|$)`, then normalise the street name by stripping a
directional word at either end and a street-type suffix word, and trim.
`none` exactly when the regex fails: no leading digit run, or no space
after it, or nothing after the spaces. -/
def parseAddress (address : String) : Option (ℕ × List Char) :=
  let norm := trimChars (address.toList.map lowerChar)
  let digits := norm.takeWhile Char.isDigit
  if digits.isEmpty then none
  else
    let rest1 := norm.dropWhile Char.isDigit
    if !((rest1.head?.map isSpaceCh).getD false) then none
    else
      let rest2 := rest1.dropWhile isSpaceCh
      if rest2.isEmpty then none
      else
        let raw := rest2.take (streetTakeLen rest2)
        let street :=
          trimChars (stripTailWord roadWords (stripTailWord dirWords (stripLeadWord dirWords raw)))
        some (digitsVal digits, street)

section StreetGroups

variable {α : Type} [LinearOrderedField α]

/-- Mean latitude over street-policy points. -/
def aMeanLat (ps : List (APoint α)) : α :=
  (ps.foldl (fun s p => s + p.lat) 0) / (ps.length : α)

/-- Mean longitude over street-policy points. -/
def aMeanLng (ps : List (APoint α)) : α :=
  (ps.foldl (fun s p => s + p.lng) 0) / (ps.length : α)

/-- Centroid of a street group: mean of the member coordinates. -/
def aCentroidOf (ps : List (APoint α)) : Coord α := ⟨aMeanLat ps, aMeanLng ps⟩

/-- Append a point under its street key in the insertion-ordered map
(JavaScript `Map` preserves key insertion order). -/
def assocAdd (m : List (List Char × List (APoint α))) (key : List Char)
    (p : APoint α) : List (List Char × List (APoint α)) :=
  if m.any (fun e => e.1 == key) then
    m.map (fun e => if e.1 == key then (e.1, e.2 ++ [p]) else e)
  else m ++ [(key, [p])]

/-- The street map of `identifyStreetGroups`: points whose address parses
are grouped under their normalised street name; points whose address fails
to parse are not entered at all (this is where unparsable addresses are
dropped). -/
def buildStreetMap (points : List (APoint α)) :
    List (List Char × List (APoint α)) :=
  points.foldl
    (fun m p =>
      match parseAddress p.address with
      | some pr => assocAdd m pr.2 p
      | none => m)
    []

/-- The customers of one street paired with their parsed house numbers
(`.map(...parseAddress...).filter(item => item.parsed)`). -/
def parsedPairs (cs : List (APoint α)) : List (APoint α × ℕ) :=
  cs.filterMap fun c => (parseAddress c.address).map fun pr => (c, pr.1)

/-- Stable insertion keeping equal house numbers in their original order,
modelling the stable `Array.prototype.sort` by ascending house number. -/
def insertByHouse (x : APoint α × ℕ) : List (APoint α × ℕ) → List (APoint α × ℕ)
  | [] => [x]
  | y :: ys => if y.2 ≤ x.2 then y :: insertByHouse x ys else x :: y :: ys

/-- Stable sort by ascending house number. -/
def sortByHouse (l : List (APoint α × ℕ)) : List (APoint α × ℕ) :=
  l.foldl (fun acc x => insertByHouse x acc) []

/-- The chaining loop over one street's sorted customers: consecutive
house numbers within 10 stay in the current group, a larger gap closes the
current group (computing its centroid) and starts a new one; the last
house number starts at `-1` as in the source (it is only compared once the
current group is non-empty). -/
def streetChain (acc0 : List (List (APoint α) × Coord α))
    (sorted : List (APoint α × ℕ)) : List (List (APoint α) × Coord α) :=
  let st := sorted.foldl
    (fun (st : List (List (APoint α) × Coord α) × List (APoint α) × ℤ) ch =>
      let acc := st.1
      let cur := st.2.1
      let last := st.2.2
      if cur.isEmpty || ((ch.2 : ℤ) - last).natAbs ≤ 10 then
        (acc, cur ++ [ch.1], (ch.2 : ℤ))
      else
        ((if cur.isEmpty then acc else acc ++ [(cur, aCentroidOf cur)]), [ch.1], (ch.2 : ℤ)))
    (acc0, ([], (-1 : ℤ)))
  if st.2.1.isEmpty then st.1 else st.1 ++ [(st.2.1, aCentroidOf st.2.1)]

/-- `identifyStreetGroups` of `src/unnamed/part_001`: group parsable
points by normalised street name (insertion order), make a singleton group
for a street with one customer (centroid = the customer's coordinates),
otherwise sort by house number and chain with gap ≤ 10.  Group ids are the
running `groups.length` at push time, i.e. the final position. -/
def identifyStreetGroups (points : List (APoint α)) : List (StreetGroup α) :=
  let m := buildStreetMap points
  let rawGroups := m.foldl
    (fun acc entry =>
      if entry.2.length == 1 then
        acc ++ (entry.2.map fun c => ([c], (⟨c.lat, c.lng⟩ : Coord α)))
      else streetChain acc (sortByHouse (parsedPairs entry.2)))
    []
  mapIdxFrom (fun k g => ⟨k, g.1, g.2⟩) 0 rawGroups

/-! ## The haversine metric over the reals (`calculateDistance`) -/

open Real in
/-- `Math.atan2(y, x)` on the reals (signed zeros do not exist in `ℝ`; the
source only ever calls it with a non-negative `y`). -/
noncomputable def atan2 (y x : ℝ) : ℝ :=
  if 0 < x then arctan (y / x)
  else if x < 0 then (if 0 ≤ y then arctan (y / x) + π else arctan (y / x) - π)
  else if 0 < y then π / 2
  else if y < 0 then -(π / 2)
  else 0

open Real in
/-- The `a` intermediate of the source's haversine formula. -/
noncomputable def haversineA (lat1 lng1 lat2 lng2 : ℝ) : ℝ :=
  sin ((lat2 - lat1) * π / 180 / 2) * sin ((lat2 - lat1) * π / 180 / 2) +
    cos (lat1 * π / 180) * cos (lat2 * π / 180) *
      sin ((lng2 - lng1) * π / 180 / 2) * sin ((lng2 - lng1) * π / 180 / 2)

open Real in
/-- `calculateDistance` of `clustering.ts`: great-circle distance in miles
by the haversine formula with Earth radius 3959 mi. -/
noncomputable def calculateDistance (lat1 lng1 lat2 lng2 : ℝ) : ℝ :=
  3959 * (2 * atan2 (√(haversineA lat1 lng1 lat2 lng2)) (√(1 - haversineA lat1 lng1 lat2 lng2)))

/-! ## Generic helper lemmas -/

section Helpers

variable {α : Type} [LinearOrderedField α]

theorem mapIdxFrom_length {β γ : Type*} (f : ℕ → β → γ) (k : ℕ) (l : List β) :
    (mapIdxFrom f k l).length = l.length := by
  induction l generalizing k with
  | nil => rfl
  | cons b bs ih => simp [mapIdxFrom, ih]

theorem mapIdxFrom_map {β γ δ : Type*} (f : ℕ → β → γ) (g : γ → δ) (k : ℕ) (l : List β) :
    (mapIdxFrom f k l).map g = mapIdxFrom (fun i b => g (f i b)) k l := by
  induction l generalizing k with
  | nil => rfl
  | cons b bs ih => simp [mapIdxFrom, ih]

theorem mapIdxFrom_const_eq_range' {β γ : Type*} (F : ℕ → γ) (k : ℕ) (l : List β) :
    mapIdxFrom (fun i _ => F i) k l = (List.range' k l.length).map F := by
  induction l generalizing k with
  | nil => rfl
  | cons b bs ih => simp [mapIdxFrom, List.range', ih]

/-- `l.getD i d :: l.eraseIdx i` is a permutation of `l` when `i` is in
range. -/
theorem getD_cons_eraseIdx_perm {β : Type*} (d : β) :
    ∀ (l : List β) (i : ℕ), i < l.length → (l.getD i d :: l.eraseIdx i).Perm l
  | [], i, h => by simp at h
  | x :: xs, 0, _ => by simp [List.eraseIdx]
  | x :: xs, i + 1, h => by
      have hi : i < xs.length := by simpa using h
      have ih := getD_cons_eraseIdx_perm d xs i hi
      have h1 : ((x :: xs).getD (i + 1) d :: (x :: xs).eraseIdx (i + 1))
          = xs.getD i d :: x :: xs.eraseIdx i := by simp [List.eraseIdx]
      rw [h1]
      exact (List.Perm.swap x (xs.getD i d) (xs.eraseIdx i)).trans (ih.cons x)

end Helpers

section RouteLemmas

variable {α : Type} [LinearOrderedField α]

theorem nearestPointAux_lt (dist : α → α → α → α → α) (curLat curLng : α) :
    ∀ (rest : List (Point α)) (i best : ℕ) (bestD : α), best < i →
      nearestPointAux dist curLat curLng rest i best bestD < i + rest.length
  | [], i, best, bestD, h => by simpa [nearestPointAux] using h
  | p :: rest, i, best, bestD, h => by
      simp only [nearestPointAux]
      split
      · have := nearestPointAux_lt dist curLat curLng rest (i + 1) i
          (dist curLat curLng p.lat p.lng) (Nat.lt_succ_self i)
        simpa [Nat.add_assoc, Nat.add_comm, Nat.add_left_comm] using this
      · have := nearestPointAux_lt dist curLat curLng rest (i + 1) best bestD
          (h.trans (Nat.lt_succ_self i))
        simpa [Nat.add_assoc, Nat.add_comm, Nat.add_left_comm] using this

theorem nearestPointIndex_lt (dist : α → α → α → α → α) (curLat curLng : α)
    (ps : List (Point α)) (h : ps ≠ []) :
    nearestPointIndex dist curLat curLng ps < ps.length := by
  match ps with
  | [] => exact absurd rfl h
  | p :: rest =>
      have := nearestPointAux_lt dist curLat curLng rest 1 0
        (dist curLat curLng p.lat p.lng) Nat.one_pos
      simpa [nearestPointIndex, Nat.add_comm] using this

theorem nnWalk_perm (dist : α → α → α → α → α) :
    ∀ (fuel : ℕ) (curLat curLng : α) (ps : List (Point α)), ps.length ≤ fuel →
      (nnWalk dist fuel curLat curLng ps).Perm ps
  | 0, _, _, ps, h => by
      have : ps = [] := List.length_eq_zero.mp (Nat.le_zero.mp h)
      simp [this, nnWalk]
  | fuel + 1, curLat, curLng, [], _ => by simp [nnWalk]
  | fuel + 1, curLat, curLng, p0 :: rest, h => by
      simp only [nnWalk]
      set ps := p0 :: rest with hps
      set i := nearestPointIndex dist curLat curLng ps with hi
      have hlt : i < ps.length := nearestPointIndex_lt dist curLat curLng ps (by simp [hps])
      have hlen : (ps.eraseIdx i).length ≤ fuel := by
        have := List.length_eraseIdx_add_one hlt
        omega
      have ihp := nnWalk_perm dist fuel (ps.getD i p0).lat (ps.getD i p0).lng
        (ps.eraseIdx i) hlen
      exact (ihp.cons (ps.getD i p0)).trans (getD_cons_eraseIdx_perm p0 ps i hlt)

theorem optimizeDayRoute_perm (dist : α → α → α → α → α) (customers : List (Point α))
    (homeBase : Option (Coord α)) :
    (optimizeDayRoute dist customers homeBase).Perm customers := by
  match homeBase with
  | none => simp [optimizeDayRoute]
  | some hb =>
      simp only [optimizeDayRoute]
      split
      · exact List.Perm.refl _
      · exact nnWalk_perm dist customers.length hb.lat hb.lng customers le_rfl

end RouteLemmas

/-! ## Facts about the haversine metric -/

open Real in
theorem atan2_nonneg (y x : ℝ) (hy : 0 ≤ y) : 0 ≤ atan2 y x := by
  unfold atan2
  by_cases h1 : 0 < x
  · rw [if_pos h1]
    have h0 : Real.arctan 0 ≤ Real.arctan (y / x) :=
      Real.arctan_strictMono.monotone (div_nonneg hy h1.le)
    simpa [Real.arctan_zero] using h0
  · rw [if_neg h1]
    by_cases h2 : x < 0
    · rw [if_pos h2, if_pos hy]
      have h3 := Real.neg_pi_div_two_lt_arctan (y / x)
      have hp := Real.pi_pos
      linarith
    · rw [if_neg h2]
      by_cases h4 : 0 < y
      · rw [if_pos h4]
        have hp := Real.pi_pos
        linarith
      · rw [if_neg h4, if_neg (not_lt.mpr hy)]

theorem haversineA_symm (lat1 lng1 lat2 lng2 : ℝ) :
    haversineA lat1 lng1 lat2 lng2 = haversineA lat2 lng2 lat1 lng1 := by
  unfold haversineA
  rw [show (lat1 - lat2) * Real.pi / 180 / 2 = -((lat2 - lat1) * Real.pi / 180 / 2) by ring,
    show (lng1 - lng2) * Real.pi / 180 / 2 = -((lng2 - lng1) * Real.pi / 180 / 2) by ring,
    Real.sin_neg, Real.sin_neg]
  ring

theorem haversineA_self (lat lng : ℝ) : haversineA lat lng lat lng = 0 := by
  unfold haversineA
  simp

theorem atan2_zero_one : atan2 0 1 = 0 := by
  unfold atan2
  rw [if_pos one_pos]
  simp [Real.arctan_zero]

/-- Self-distance of the haversine metric is zero. -/
theorem calculateDistance_self (lat lng : ℝ) : calculateDistance lat lng lat lng = 0 := by
  unfold calculateDistance
  rw [haversineA_self]
  simp [atan2_zero_one]

/-! ## K-means structure lemmas -/

section KMeansLemmas

variable {α : Type} [LinearOrderedField α]

theorem nearestAux_lt (dist : α → α → α → α → α) (p : Point α) :
    ∀ (rest : List (Coord α)) (i best : ℕ) (bestD : α), best < i →
      nearestAux dist p rest i best bestD < i + rest.length
  | [], i, best, bestD, h => by simpa [nearestAux] using h
  | c :: rest, i, best, bestD, h => by
      simp only [nearestAux]
      split
      · have := nearestAux_lt dist p rest (i + 1) i
          (dist p.lat p.lng c.lat c.lng) (Nat.lt_succ_self i)
        simpa [Nat.add_assoc, Nat.add_comm, Nat.add_left_comm] using this
      · have := nearestAux_lt dist p rest (i + 1) best bestD (h.trans (Nat.lt_succ_self i))
        simpa [Nat.add_assoc, Nat.add_comm, Nat.add_left_comm] using this

theorem nearestClusterIndex_lt (dist : α → α → α → α → α) (centroids : List (Coord α))
    (p : Point α) (h : centroids ≠ []) :
    nearestClusterIndex dist centroids p < centroids.length := by
  match centroids with
  | [] => exact absurd rfl h
  | c :: rest =>
      have := nearestAux_lt dist p rest 1 0 (dist p.lat p.lng c.lat c.lng) Nat.one_pos
      simpa [nearestClusterIndex, Nat.add_comm] using this

theorem join_map_nil {β γ : Type*} (ks : List β) :
    (ks.map (fun _ => ([] : List γ))).join = [] := by
  induction ks with
  | nil => rfl
  | cons k ks ih => simp [ih]

/-- Filtering a list by each of a duplicate-free family of indices that
contains every element's index, then concatenating, permutes the list. -/
theorem join_filter_cons_perm {β : Type*} (f : β → ℕ) (b : β) (l : List β) :
    ∀ (ks : List ℕ), ks.Nodup → f b ∈ ks →
      ((ks.map (fun k => (b :: l).filter (fun x => f x == k))).join).Perm
        (b :: (ks.map (fun k => l.filter (fun x => f x == k))).join)
  | [], _, hmem => absurd hmem (List.not_mem_nil _)
  | k :: ks, hnd, hmem => by
      have hnd' : ks.Nodup := hnd.of_cons
      by_cases hk : f b = k
      · have hnotin : f b ∉ ks := by
          subst hk
          exact (List.nodup_cons.mp hnd).1
        have hmap : ks.map (fun j => (b :: l).filter (fun x => f x == j)) =
            ks.map (fun j => l.filter (fun x => f x == j)) := by
          apply List.map_congr_left
          intro j hj
          have : (f b == j) = false := by
            simp only [beq_eq_false_iff_ne]
            exact fun h => hnotin (h ▸ hj)
          simp [List.filter_cons, this]
        have hhead : (b :: l).filter (fun x => f x == k) =
            b :: l.filter (fun x => f x == k) := by
          simp [List.filter_cons, hk]
        simp only [List.map_cons, List.join_cons, hhead, hmap]
        exact List.Perm.refl _
      · have hmem' : f b ∈ ks := by
          rcases List.mem_cons.mp hmem with h | h
          · exact absurd h hk
          · exact h
        have hhead : (b :: l).filter (fun x => f x == k) = l.filter (fun x => f x == k) := by
          have : (f b == k) = false := by
            simp only [beq_eq_false_iff_ne]
            exact hk
          simp [List.filter_cons, this]
        have ih := join_filter_cons_perm f b l ks hnd' hmem'
        simp only [List.map_cons, List.join_cons, hhead]
        exact (ih.append_left _).trans (List.perm_middle)

theorem join_filter_range_perm {β : Type*} (f : β → ℕ) (n : ℕ) :
    ∀ (l : List β), (∀ x ∈ l, f x < n) →
      (((List.range n).map (fun k => l.filter (fun x => f x == k))).join).Perm l
  | [], _ => by simp [join_map_nil]
  | b :: l, h => by
      have hb : f b ∈ List.range n := List.mem_range.mpr (h b (by simp))
      have ih := join_filter_range_perm f n l (fun x hx => h x (by simp [hx]))
      exact (join_filter_cons_perm f b l (List.range n) (List.nodup_range n) hb).trans (ih.cons b)

/-- The points of every input list distribute over one k-means assignment
round without loss or duplication. -/
theorem assignClusters_points_perm (dist : α → α → α → α → α) (points : List (Point α))
    (centroids : List (Coord α)) (h : centroids ≠ []) :
    (((assignClusters dist points centroids).map Cluster.points).join).Perm points := by
  have hmap : (assignClusters dist points centroids).map Cluster.points =
      (List.range centroids.length).map
        (fun k => points.filter (fun p => nearestClusterIndex dist centroids p == k)) := by
    unfold assignClusters
    rw [mapIdxFrom_map]
    rw [mapIdxFrom_const_eq_range' (fun k => points.filter
      (fun p => nearestClusterIndex dist centroids p == k)) 0 centroids]
    rw [← List.range_eq_range']
  rw [hmap]
  exact join_filter_range_perm _ centroids.length points
    (fun p _ => nearestClusterIndex_lt dist centroids p h)

theorem assignClusters_length (dist : α → α → α → α → α) (points : List (Point α))
    (centroids : List (Coord α)) :
    (assignClusters dist points centroids).length = centroids.length := by
  unfold assignClusters
  exact mapIdxFrom_length _ 0 centroids

theorem assignClusters_ids (dist : α → α → α → α → α) (points : List (Point α))
    (centroids : List (Coord α)) :
    (assignClusters dist points centroids).map Cluster.id = List.range centroids.length := by
  unfold assignClusters
  rw [mapIdxFrom_map]
  rw [mapIdxFrom_const_eq_range' (fun k => k) 0 centroids]
  rw [← List.range_eq_range']
  simp

theorem newCentroids_length (clusters : List (Cluster α)) :
    (newCentroids clusters).length = clusters.length := by
  unfold newCentroids
  exact List.length_map _ _

/-- The k-means loop's result is always one assignment round over a
centroid list of the initial length. -/
theorem kmeansLoop_eq_assign (dist : α → α → α → α → α) (points : List (Point α)) :
    ∀ (fuel : ℕ) (centroids : List (Coord α)),
      ∃ cs, cs.length = centroids.length ∧
        kmeansLoop dist points fuel centroids = assignClusters dist points cs
  | 0, centroids => ⟨centroids, rfl, rfl⟩
  | fuel + 1, centroids => by
      simp only [kmeansLoop]
      split
      · exact ⟨centroids, rfl, rfl⟩
      · have ih := kmeansLoop_eq_assign dist points fuel
          (newCentroids (assignClusters dist points centroids))
        rcases ih with ⟨cs, hlen, heq⟩
        refine ⟨cs, ?_, heq⟩
        rw [hlen, newCentroids_length, assignClusters_length]

theorem initCentroids_length (rnd : ℕ → α) (points : List (Point α)) (numDays : ℕ)
    (homeBase : Option (Coord α)) :
    (initCentroids rnd points numDays homeBase).length = numDays := by
  unfold initCentroids
  match homeBase with
  | some hb =>
      by_cases h : 1 < numDays
      · simp only [if_pos h, List.length_cons, List.length_map, List.length_range]
        omega
      · simp [if_neg h]
  | none => simp

theorem performKMeans_length (dist : α → α → α → α → α) (rnd : ℕ → α)
    (points : List (Point α)) (numDays : ℕ) (homeBase : Option (Coord α)) :
    (performKMeansClustering dist rnd points numDays homeBase).length = numDays := by
  unfold performKMeansClustering
  rcases kmeansLoop_eq_assign dist points 20 (initCentroids rnd points numDays homeBase)
    with ⟨cs, hlen, heq⟩
  rw [heq, assignClusters_length, hlen, initCentroids_length]

theorem performKMeans_ids (dist : α → α → α → α → α) (rnd : ℕ → α)
    (points : List (Point α)) (numDays : ℕ) (homeBase : Option (Coord α)) :
    (performKMeansClustering dist rnd points numDays homeBase).map Cluster.id =
      List.range numDays := by
  unfold performKMeansClustering
  rcases kmeansLoop_eq_assign dist points 20 (initCentroids rnd points numDays homeBase)
    with ⟨cs, hlen, heq⟩
  rw [heq, assignClusters_ids, hlen, initCentroids_length]

theorem performKMeans_points_perm (dist : α → α → α → α → α) (rnd : ℕ → α)
    (points : List (Point α)) (numDays : ℕ) (homeBase : Option (Coord α))
    (h : 0 < numDays) :
    (((performKMeansClustering dist rnd points numDays homeBase).map Cluster.points).join).Perm
      points := by
  unfold performKMeansClustering
  rcases kmeansLoop_eq_assign dist points 20 (initCentroids rnd points numDays homeBase)
    with ⟨cs, hlen, heq⟩
  rw [heq]
  apply assignClusters_points_perm
  intro hnil
  rw [hnil] at hlen
  simp [initCentroids_length] at hlen
  omega

end KMeansLemmas

/-! ## Balancing-loop invariants -/

section BalanceLemmas

variable {α : Type} [LinearOrderedField α]

/-- All points of all clusters, in bucket order. -/
def allPoints (cs : List (Cluster α)) : List (Point α) := (cs.map Cluster.points).join

/-- Total number of points over all clusters. -/
def totalPoints (cs : List (Cluster α)) : ℕ := (cs.map fun cl => cl.points.length).sum

/-- `x` is the id of some point of some cluster (indexed form). -/
def hasPointId (cs : List (Cluster α)) (x : ℕ) : Prop :=
  ∃ k, k < cs.length ∧ ∃ p ∈ (cs.getD k (dummyCluster (α := α))).points, p.id = x

theorem getD_set_self {β : Type*} (d : β) :
    ∀ (l : List β) (k : ℕ) (x : β), k < l.length → (l.set k x).getD k d = x
  | [], k, x, h => by simp at h
  | b :: bs, 0, x, _ => rfl
  | b :: bs, k + 1, x, h =>
      getD_set_self d bs k x (by simpa using h)

theorem getD_set_ne {β : Type*} (d : β) :
    ∀ (l : List β) (k m : ℕ) (x : β), k ≠ m → (l.set k x).getD m d = l.getD m d
  | [], k, m, x, _ => by simp
  | b :: bs, 0, 0, x, h => absurd rfl h
  | b :: bs, 0, m + 1, x, _ => rfl
  | b :: bs, k + 1, 0, x, _ => rfl
  | b :: bs, k + 1, m + 1, x, h =>
      getD_set_ne d bs k m x (fun hh => h (by rw [hh]))

theorem updateClusterCentroid_points (cl : Cluster α) :
    (updateClusterCentroid cl).points = cl.points := by
  unfold updateClusterCentroid
  split <;> rfl

theorem updateClusterCentroid_id (cl : Cluster α) :
    (updateClusterCentroid cl).id = cl.id := by
  unfold updateClusterCentroid
  split <;> rfl

theorem move_length (cs : List (Cluster α)) (i j : ℕ) (c : Point α) :
    (moveCustomerBetweenClusters cs i j c).length = cs.length := by
  unfold moveCustomerBetweenClusters
  simp

/-- Pointwise description of a move: the target gets the customer
appended, the source keeps only points with a different id, all other
clusters are untouched. -/
theorem move_getD_points (cs : List (Cluster α)) (i j : ℕ) (c : Point α) (k : ℕ)
    (hi : i < cs.length) (hj : j < cs.length) :
    ((moveCustomerBetweenClusters cs i j c).getD k (dummyCluster (α := α))).points =
      (if k = j then
        (if k = i then
          (cs.getD k (dummyCluster (α := α))).points.filter (fun p => !(p.id == c.id))
         else (cs.getD k (dummyCluster (α := α))).points) ++ [c]
       else if k = i then
        (cs.getD k (dummyCluster (α := α))).points.filter (fun p => !(p.id == c.id))
       else (cs.getD k (dummyCluster (α := α))).points) := by
  unfold moveCustomerBetweenClusters
  set d := (dummyCluster (α := α))
  set A := { cs.getD i d with points := (cs.getD i d).points.filter (fun p => !(p.id == c.id)) }
    with hA
  set cs1 := cs.set i A with hcs1
  have hlen1 : cs1.length = cs.length := by simp [hcs1]
  set B := { cs1.getD j d with points := (cs1.getD j d).points ++ [c] } with hB
  set cs2 := cs1.set j B with hcs2
  have hlen2 : cs2.length = cs.length := by simp [hcs2, hlen1]
  set C2 := updateClusterCentroid (cs2.getD i d) with hC2
  set cs3 := cs2.set i C2 with hcs3
  have hlen3 : cs3.length = cs.length := by simp [hcs3, hlen2]
  by_cases hkj : k = j
  · subst hkj
    rw [if_pos rfl]
    have hj3 : k < cs3.length := by rw [hlen3]; exact hj
    by_cases hki : k = i
    · subst hki
      rw [if_pos rfl]
      have h2 : cs2.getD k d = B := getD_set_self d cs1 k B (by rw [hlen1]; exact hj)
      have h3 : cs3.getD k d = C2 := getD_set_self d cs2 k C2 (by rw [hlen2]; exact hj)
      rw [getD_set_self d cs3 k _ hj3, updateClusterCentroid_points, h3, hC2, h2,
        updateClusterCentroid_points, hB]
      have h1 : cs1.getD k d = A := getD_set_self d cs k A hj
      show (cs1.getD k d).points ++ [c] = _
      rw [h1]
    · rw [if_neg hki]
      have h3 : cs3.getD k d = cs2.getD k d := getD_set_ne d cs2 i k C2 (fun h => hki h.symm)
      have h2 : cs2.getD k d = B := getD_set_self d cs1 k B (by rw [hlen1]; exact hj)
      rw [getD_set_self d cs3 k _ hj3, updateClusterCentroid_points, h3, h2, hB]
      have h1 : cs1.getD k d = cs.getD k d := getD_set_ne d cs i k A (fun h => hki h.symm)
      show (cs1.getD k d).points ++ [c] = _
      rw [h1]
  · rw [if_neg hkj]
    have hr : ((cs3.set j (updateClusterCentroid (cs3.getD j d))).getD k d) = cs3.getD k d :=
      getD_set_ne d cs3 j k _ (fun h => hkj h.symm)
    rw [hr]
    by_cases hki : k = i
    · subst hki
      rw [if_pos rfl]
      have h3 : cs3.getD k d = C2 := getD_set_self d cs2 k C2 (by rw [hlen2]; exact hi)
      have h2 : cs2.getD k d = cs1.getD k d := getD_set_ne d cs1 j k B (fun h => hkj h.symm)
      have h1 : cs1.getD k d = A := getD_set_self d cs k A hi
      rw [h3, hC2, updateClusterCentroid_points, h2, h1, hA]
    · rw [if_neg hki]
      have h3 : cs3.getD k d = cs2.getD k d := getD_set_ne d cs2 i k C2 (fun h => hki h.symm)
      have h2 : cs2.getD k d = cs1.getD k d := getD_set_ne d cs1 j k B (fun h => hkj h.symm)
      have h1 : cs1.getD k d = cs.getD k d := getD_set_ne d cs i k A (fun h => hki h.symm)
      rw [h3, h2, h1]

end BalanceLemmas

section BalanceInvariants

variable {α : Type} [LinearOrderedField α]

theorem move_preserves_hasPointId (cs : List (Cluster α)) (i j : ℕ) (c : Point α)
    (hi : i < cs.length) (hj : j < cs.length) (x : ℕ) (hx : hasPointId cs x) :
    hasPointId (moveCustomerBetweenClusters cs i j c) x := by
  rcases hx with ⟨k, hk, p, hp, hpx⟩
  have hlen := move_length cs i j c
  by_cases hpc : p.id = c.id
  · refine ⟨j, by rw [hlen]; exact hj, c, ?_, by rw [← hpx, hpc]⟩
    rw [move_getD_points cs i j c j hi hj, if_pos rfl]
    simp
  · refine ⟨k, by rw [hlen]; exact hk, p, ?_, hpx⟩
    rw [move_getD_points cs i j c k hi hj]
    have hmemf : p ∈ (cs.getD k (dummyCluster (α := α))).points.filter
        (fun q => !(q.id == c.id)) := by
      rw [List.mem_filter]
      exact ⟨hp, by simp [hpc]⟩
    by_cases hkj : k = j
    · rw [if_pos hkj]
      by_cases hki : k = i
      · rw [if_pos hki]
        exact List.mem_append_left _ hmemf
      · rw [if_neg hki]
        exact List.mem_append_left _ hp
    · rw [if_neg hkj]
      by_cases hki : k = i
      · rw [if_pos hki]
        exact hmemf
      · rw [if_neg hki]
        exact hp

theorem set_map_eq {β γ : Type*} (f : β → γ) (d : β) :
    ∀ (l : List β) (k : ℕ) (x : β), f x = f (l.getD k d) → (l.set k x).map f = l.map f
  | [], k, x, h => by simp
  | b :: bs, 0, x, h => by
      simp only [List.set, List.map_cons]
      rw [show f x = f b from h]
  | b :: bs, k + 1, x, h => by
      simp only [List.set, List.map_cons]
      rw [set_map_eq f d bs k x h]

theorem move_ids (cs : List (Cluster α)) (i j : ℕ) (c : Point α) :
    (moveCustomerBetweenClusters cs i j c).map Cluster.id = cs.map Cluster.id := by
  unfold moveCustomerBetweenClusters
  refine Eq.trans
    (set_map_eq Cluster.id (dummyCluster (α := α)) _ _ _ (updateClusterCentroid_id _)) ?_
  refine Eq.trans
    (set_map_eq Cluster.id (dummyCluster (α := α)) _ _ _ (updateClusterCentroid_id _)) ?_
  refine Eq.trans (set_map_eq Cluster.id (dummyCluster (α := α)) _ _ _ rfl) ?_
  exact set_map_eq Cluster.id (dummyCluster (α := α)) _ _ _ rfl

end BalanceInvariants

section BalanceStepLemmas

variable {α : Type} [LinearOrderedField α]

theorem scanTargetAux_lt (dist : α → α → α → α → α) (homeBase : Coord α) (selfId : ℕ)
    (current : α) (lighten : Bool) :
    ∀ (rest : List (Cluster α)) (i j : ℕ),
      scanTargetAux dist homeBase selfId current lighten i rest = some j → j < i + rest.length
  | [], i, j, h => by simp [scanTargetAux] at h
  | cl :: rest, i, j, h => by
      simp only [scanTargetAux] at h
      split at h
      · have := scanTargetAux_lt dist homeBase selfId current lighten rest (i + 1) j h
        simp only [List.length_cons]
        omega
      · split at h
        · simp only [Option.some.injEq] at h
          subst h
          simp
        · split at h
          · simp only [Option.some.injEq] at h
            subst h
            simp
          · have := scanTargetAux_lt dist homeBase selfId current lighten rest (i + 1) j h
            simp only [List.length_cons]
            omega

theorem findSome?_imp {β γ : Type*} (f : β → Option γ) :
    ∀ (l : List β) (y : γ), l.findSome? f = some y → ∃ x ∈ l, f x = some y
  | [], y, h => by simp [List.findSome?] at h
  | b :: bs, y, h => by
      rw [List.findSome?_cons] at h
      match hb : f b with
      | some z =>
          rw [hb] at h
          have h' : some z = some y := h
          exact ⟨b, by simp, by rw [hb, h']⟩
      | none =>
          rw [hb] at h
          have h' : List.findSome? f bs = some y := h
          rcases findSome?_imp f bs y h' with ⟨x, hx, hfx⟩
          exact ⟨x, by simp [hx], hfx⟩

theorem findBest_target_lt (dist : α → α → α → α → α) (homeBase : Coord α)
    (cluster : Cluster α) (allClusters : List (Cluster α)) (lighten : Bool)
    (cj : Point α × ℕ)
    (h : findBestCustomerToMove dist homeBase cluster allClusters lighten = some cj) :
    cj.2 < allClusters.length := by
  unfold findBestCustomerToMove at h
  rcases findSome?_imp _ _ _ h with ⟨c, hc, hfc⟩
  match hscan : scanTargetAux dist homeBase cluster.id
      (calculateClusterDriveTime dist homeBase cluster) lighten 0 allClusters with
  | none => rw [hscan] at hfc; simp at hfc
  | some j =>
      rw [hscan] at hfc
      simp only [Option.map_some', Option.some.injEq] at hfc
      have := scanTargetAux_lt dist homeBase cluster.id
        (calculateClusterDriveTime dist homeBase cluster) lighten allClusters 0 j hscan
      rw [← hfc]
      simpa using this

/-- The state predicate preserved by the whole balancing phase. -/
def balInv (n : ℕ) (ids0 : List ℕ) (cs : List (Cluster α)) : Prop :=
  cs.length = n ∧ ∀ x ∈ ids0, hasPointId cs x

theorem balanceStep_inv (dist : α → α → α → α → α) (homeBase : Coord α) (target tol : α)
    (n : ℕ) (ids0 : List ℕ) (st : List (Cluster α) × Bool) (i : ℕ)
    (hi : i < n) (hinv : balInv n ids0 st.1) :
    balInv n ids0 (balanceStep dist homeBase target tol st i).1 := by
  rcases hinv with ⟨hlen, hcov⟩
  unfold balanceStep
  dsimp only
  split
  · match hfind : findBestCustomerToMove dist homeBase
        (st.1.getD i (dummyCluster (α := α))) st.1 true with
    | some cj =>
        simp only [hfind]
        have hj : cj.2 < st.1.length := findBest_target_lt _ _ _ _ _ _ hfind
        have hi' : i < st.1.length := by omega
        constructor
        · rw [move_length]; exact hlen
        · intro x hx
          exact move_preserves_hasPointId _ _ _ _ hi' hj x (hcov x hx)
    | none => simp only [hfind]; exact ⟨hlen, hcov⟩
  · split
    · match hfind : findBestCustomerToMove dist homeBase
          (st.1.getD i (dummyCluster (α := α))) st.1 false with
      | some cj =>
          simp only [hfind]
          have hj : cj.2 < st.1.length := findBest_target_lt _ _ _ _ _ _ hfind
          have hi' : i < st.1.length := by omega
          constructor
          · rw [move_length]; exact hlen
          · intro x hx
            exact move_preserves_hasPointId _ _ _ _ hj hi' x (hcov x hx)
      | none => simp only [hfind]; exact ⟨hlen, hcov⟩
    · exact ⟨hlen, hcov⟩

theorem foldl_invariant {σ β : Type*} (P : σ → Prop) (f : σ → β → σ) :
    ∀ (l : List β) (s : σ), P s → (∀ s' b, b ∈ l → P s' → P (f s' b)) → P (l.foldl f s)
  | [], s, h, _ => h
  | b :: bs, s, h, hstep => by
      simp only [List.foldl_cons]
      exact foldl_invariant P f bs (f s b) (hstep s b (by simp) h)
        (fun s' b' hb' => hstep s' b' (by simp [hb']))

theorem balancePass_inv (dist : α → α → α → α → α) (homeBase : Coord α) (target tol : α)
    (ids0 : List ℕ) (cs : List (Cluster α)) (hinv : balInv cs.length ids0 cs) :
    balInv cs.length ids0 (balancePass dist homeBase target tol cs).1 := by
  unfold balancePass
  have := foldl_invariant (fun st => balInv cs.length ids0 st.1)
    (balanceStep dist homeBase target tol) (List.range cs.length) (cs, true) hinv
    (fun st i hi h => balanceStep_inv dist homeBase target tol cs.length ids0 st i
      (List.mem_range.mp hi) h)
  exact this

theorem balanceLoop_inv (dist : α → α → α → α → α) (homeBase : Coord α) (target tol : α)
    (n : ℕ) (ids0 : List ℕ) :
    ∀ (fuel : ℕ) (cs : List (Cluster α)), cs.length = n → balInv n ids0 cs →
      balInv n ids0 (balanceLoop dist homeBase target tol fuel cs)
  | 0, cs, _, hinv => hinv
  | fuel + 1, cs, hlen, hinv => by
      simp only [balanceLoop]
      have hpass := balancePass_inv dist homeBase target tol ids0 cs (hlen ▸ hinv)
      rw [hlen] at hpass
      split
      · exact hpass
      · exact balanceLoop_inv dist homeBase target tol n ids0 fuel _ hpass.1 hpass

end BalanceStepLemmas

section RepairLemmas

variable {α : Type} [LinearOrderedField α]

theorem repairOne_length (cs : List (Cluster α)) (popIdxs : List ℕ) (e : ℕ) :
    (repairOne cs popIdxs e).length = cs.length := by
  unfold repairOne
  split
  · rfl
  · dsimp only
    split
    · split
      · simp
      · rfl
    · rfl

theorem repairOne_ids (cs : List (Cluster α)) (popIdxs : List ℕ) (e : ℕ) :
    (repairOne cs popIdxs e).map Cluster.id = cs.map Cluster.id := by
  unfold repairOne
  split
  · rfl
  · dsimp only
    split
    · split
      · refine Eq.trans (set_map_eq Cluster.id (dummyCluster (α := α)) _ _ _ rfl) ?_
        exact set_map_eq Cluster.id (dummyCluster (α := α)) _ _ _ rfl
      · rfl
    · rfl

theorem balanceEmptyClusters_length (cs : List (Cluster α)) :
    (balanceEmptyClusters cs).length = cs.length := by
  unfold balanceEmptyClusters
  dsimp only
  refine foldl_invariant (fun (acc : List (Cluster α)) => acc.length = cs.length) _ _ _ rfl ?_
  intro acc e he h
  rw [repairOne_length, h]

theorem balanceEmptyClusters_ids (cs : List (Cluster α)) :
    (balanceEmptyClusters cs).map Cluster.id = cs.map Cluster.id := by
  unfold balanceEmptyClusters
  dsimp only
  refine foldl_invariant (fun (acc : List (Cluster α)) => acc.map Cluster.id = cs.map Cluster.id) _ _ _ rfl ?_
  intro acc e he h
  rw [repairOne_ids, h]

theorem mostPopulatedIdx_foldl_mem (cs : List (Cluster α)) :
    ∀ (rest : List ℕ) (j : ℕ),
      (rest.foldl (fun best k =>
        if (cs.getD best (dummyCluster (α := α))).points.length <
            (cs.getD k (dummyCluster (α := α))).points.length then k else best) j) = j ∨
      (rest.foldl (fun best k =>
        if (cs.getD best (dummyCluster (α := α))).points.length <
            (cs.getD k (dummyCluster (α := α))).points.length then k else best) j) ∈ rest
  | [], j => Or.inl rfl
  | k :: rest, j => by
      simp only [List.foldl_cons]
      rcases mostPopulatedIdx_foldl_mem cs rest
        (if (cs.getD j (dummyCluster (α := α))).points.length <
            (cs.getD k (dummyCluster (α := α))).points.length then k else j) with h | h
      · rw [h]
        split
        · exact Or.inr (by simp)
        · exact Or.inl rfl
      · exact Or.inr (List.mem_cons_of_mem _ h)

theorem mostPopulatedIdx_mem (cs : List (Cluster α)) (l : List ℕ) (h : l ≠ []) :
    mostPopulatedIdx cs l ∈ l := by
  match l with
  | [] => exact absurd rfl h
  | j :: rest =>
      simp only [mostPopulatedIdx]
      rcases mostPopulatedIdx_foldl_mem cs rest j with h1 | h1
      · rw [h1]; simp
      · exact List.mem_cons_of_mem _ h1

theorem mostPopulatedIdx_foldl_max (cs : List (Cluster α)) :
    ∀ (rest : List ℕ) (j : ℕ),
      ((cs.getD j (dummyCluster (α := α))).points.length ≤
        (cs.getD (rest.foldl (fun best k =>
          if (cs.getD best (dummyCluster (α := α))).points.length <
              (cs.getD k (dummyCluster (α := α))).points.length then k else best) j)
          (dummyCluster (α := α))).points.length) ∧
      ∀ m ∈ rest, (cs.getD m (dummyCluster (α := α))).points.length ≤
        (cs.getD (rest.foldl (fun best k =>
          if (cs.getD best (dummyCluster (α := α))).points.length <
              (cs.getD k (dummyCluster (α := α))).points.length then k else best) j)
          (dummyCluster (α := α))).points.length
  | [], j => ⟨le_rfl, by simp⟩
  | k :: rest, j => by
      simp only [List.foldl_cons]
      set j' := if (cs.getD j (dummyCluster (α := α))).points.length <
          (cs.getD k (dummyCluster (α := α))).points.length then k else j with hj'
      have ih := mostPopulatedIdx_foldl_max cs rest j'
      have hjj' : (cs.getD j (dummyCluster (α := α))).points.length ≤
          (cs.getD j' (dummyCluster (α := α))).points.length := by
        rw [hj']
        split
        · omega
        · exact le_rfl
      have hkj' : (cs.getD k (dummyCluster (α := α))).points.length ≤
          (cs.getD j' (dummyCluster (α := α))).points.length := by
        rw [hj']
        split
        · exact le_rfl
        · omega
      refine ⟨hjj'.trans ih.1, ?_⟩
      intro m hm
      rcases List.mem_cons.mp hm with hmk | hmrest
      · rw [hmk]
        exact hkj'.trans ih.1
      · exact ih.2 m hmrest

theorem mostPopulatedIdx_max (cs : List (Cluster α)) (l : List ℕ) :
    ∀ m ∈ l, (cs.getD m (dummyCluster (α := α))).points.length ≤
      (cs.getD (mostPopulatedIdx cs l) (dummyCluster (α := α))).points.length := by
  match l with
  | [] => simp
  | j :: rest =>
      intro m hm
      simp only [mostPopulatedIdx]
      rcases List.mem_cons.mp hm with hmj | hmrest
      · rw [hmj]
        exact (mostPopulatedIdx_foldl_max cs rest j).1
      · exact (mostPopulatedIdx_foldl_max cs rest j).2 m hmrest

/-- Sum of the cluster sizes at a list of indices. -/
def sumAt (cs : List (Cluster α)) (idxs : List ℕ) : ℕ :=
  (idxs.map (fun k => (cs.getD k (dummyCluster (α := α))).points.length)).sum

theorem sumAt_set_not_mem (cs : List (Cluster α)) (idxs : List ℕ) (e : ℕ)
    (cl : Cluster α) (he : e ∉ idxs) :
    sumAt (cs.set e cl) idxs = sumAt cs idxs := by
  unfold sumAt
  congr 1
  apply List.map_congr_left
  intro k hk
  rw [getD_set_ne _ cs e k cl (fun h => he (h ▸ hk))]

theorem sumAt_set_mem_add (cs : List (Cluster α)) (cl : Cluster α) :
    ∀ (idxs : List ℕ) (j : ℕ), idxs.Nodup → j ∈ idxs → j < cs.length →
      sumAt (cs.set j cl) idxs + (cs.getD j (dummyCluster (α := α))).points.length =
        sumAt cs idxs + cl.points.length
  | [], j, _, hj, _ => absurd hj (List.not_mem_nil j)
  | k :: idxs, j, hnd, hj, hjlen => by
      rcases List.mem_cons.mp hj with hjk | hjmem
      · subst hjk
        have hnotin : j ∉ idxs := (List.nodup_cons.mp hnd).1
        unfold sumAt
        simp only [List.map_cons, List.sum_cons]
        rw [getD_set_self _ cs j cl hjlen]
        have : sumAt (cs.set j cl) idxs = sumAt cs idxs :=
          sumAt_set_not_mem cs idxs j cl hnotin
        unfold sumAt at this
        omega
      · have hkj : k ≠ j := by
          intro h
          exact (List.nodup_cons.mp hnd).1 (h ▸ hjmem)
        have ih := sumAt_set_mem_add cs cl idxs j (List.nodup_cons.mp hnd).2 hjmem hjlen
        unfold sumAt
        simp only [List.map_cons, List.sum_cons]
        rw [getD_set_ne _ cs j k cl (fun h => hkj h.symm)]
        unfold sumAt at ih
        omega

theorem sum_le_length_mul_max (g : ℕ → ℕ) (M : ℕ) :
    ∀ (l : List ℕ), (∀ k ∈ l, g k ≤ M) → (l.map g).sum ≤ l.length * M
  | [], _ => by simp
  | k :: l, h => by
      simp only [List.map_cons, List.sum_cons, List.length_cons]
      have h1 := h k (by simp)
      have h2 := sum_le_length_mul_max g M l (fun m hm => h m (by simp [hm]))
      calc g k + (l.map g).sum ≤ M + l.length * M := by omega
        _ = (l.length + 1) * M := by ring

end RepairLemmas

section RepairNonempty

variable {α : Type} [LinearOrderedField α]

theorem map_range_getD {γ : Type*} (g : Cluster α → γ) :
    ∀ (cs : List (Cluster α)),
      (List.range cs.length).map (fun k => g (cs.getD k (dummyCluster (α := α)))) = cs.map g
  | [] => rfl
  | c :: cs => by
      rw [List.length_cons, List.range_succ_eq_map]
      simp only [List.map_cons, List.map_map]
      rw [show ((c :: cs).getD 0 (dummyCluster (α := α))) = c from rfl]
      congr 1
      have := map_range_getD g cs
      rw [← this]
      apply List.map_congr_left
      intro k hk
      rfl

/-- Size classification identity: the points in large clusters plus one per
index equal the number of empty indices plus the number of large indices
plus all points. -/
theorem sum_filter_classify (f : ℕ → ℕ) :
    ∀ (idxs : List ℕ),
      ((idxs.filter fun k => decide (1 < f k)).map f).sum + idxs.length =
        (idxs.filter fun k => decide (f k = 0)).length +
          (idxs.filter fun k => decide (1 < f k)).length + (idxs.map f).sum
  | [] => by simp
  | k :: idxs => by
      have ih := sum_filter_classify f idxs
      by_cases h0 : f k = 0
      · simp only [List.filter_cons, List.map_cons, List.sum_cons, List.length_cons,
          decide_eq_true_eq, h0]
        norm_num
        omega
      · by_cases h1 : 1 < f k
        · simp only [List.filter_cons, List.map_cons, List.sum_cons, List.length_cons,
            decide_eq_true_eq, h0, h1]
          norm_num
          omega
        · simp only [List.filter_cons, List.map_cons, List.sum_cons, List.length_cons,
            decide_eq_true_eq, h0, h1]
          norm_num
          omega

theorem repairOne_nonempty_step (acc : List (Cluster α)) (P : List ℕ) (e : ℕ)
    (hPn : ∀ j ∈ P, j < acc.length) (hPnd : P.Nodup)
    (he : e < acc.length) (heP : e ∉ P) (hsum : 1 + P.length ≤ sumAt acc P) :
    ((repairOne acc P e).getD e (dummyCluster (α := α))).points ≠ [] ∧
      (∀ k, k < acc.length → k ≠ e →
        ((acc.getD k (dummyCluster (α := α))).points ≠ [] →
          ((repairOne acc P e).getD k (dummyCluster (α := α))).points ≠ [])) ∧
      P.length + sumAt (repairOne acc P e) P + 1 = sumAt acc P + P.length := by
  have hPne : P ≠ [] := by
    intro h
    rw [h] at hsum
    simp [sumAt] at hsum
  set d := (dummyCluster (α := α))
  set j := mostPopulatedIdx acc P with hj
  have hjP : j ∈ P := mostPopulatedIdx_mem acc P hPne
  have hjn : j < acc.length := hPn j hjP
  have hmax : ∀ m ∈ P, (acc.getD m d).points.length ≤ (acc.getD j d).points.length :=
    mostPopulatedIdx_max acc P
  have hbig : 1 < (acc.getD j d).points.length := by
    by_contra hle
    push_neg at hle
    have hsum2 : sumAt acc P ≤ P.length * 1 :=
      sum_le_length_mul_max _ 1 P (fun m hm => (hmax m hm).trans hle)
    omega
  have hne : (acc.getD j d).points ≠ [] := by
    intro h
    rw [h] at hbig
    simp at hbig
  obtain ⟨pt, hpt⟩ : ∃ pt, (acc.getD j d).points.getLast? = some pt := by
    rcases (acc.getD j d).points.getLast?.eq_none_or_eq_some with h | h
    · rw [List.getLast?_eq_none_iff] at h
      exact absurd h hne
    · exact h
  have hrepair : repairOne acc P e =
      (acc.set j { acc.getD j d with points := (acc.getD j d).points.dropLast }).set e
        { ((acc.set j { acc.getD j d with points := (acc.getD j d).points.dropLast }).getD e d)
            with
          points := ((acc.set j { acc.getD j d with
              points := (acc.getD j d).points.dropLast }).getD e d).points ++ [pt],
          centroid := ⟨pt.lat, pt.lng⟩ } := by
    unfold repairOne
    rw [if_neg (by simp [List.isEmpty_iff, hPne]), ← hj, if_pos hbig, hpt]
  set cs1 := acc.set j { acc.getD j d with points := (acc.getD j d).points.dropLast }
    with hcs1
  have hlen1 : cs1.length = acc.length := by simp [hcs1]
  have hje : j ≠ e := fun h => heP (h ▸ hjP)
  refine ⟨?_, ?_, ?_⟩
  · rw [hrepair, getD_set_self d cs1 e _ (by rw [hlen1]; exact he)]
    simp
  · intro k hk hke hold
    rw [hrepair, getD_set_ne d cs1 e k _ (fun h => hke h.symm)]
    by_cases hkj : k = j
    · subst hkj
      rw [hcs1, getD_set_self d acc j _ hjn]
      intro hdrop
      have hdrop2 : (acc.getD j d).points.dropLast = [] := hdrop
      have hlend := List.length_dropLast (acc.getD j d).points
      rw [hdrop2] at hlend
      simp only [List.length_nil] at hlend
      omega
    · rw [hcs1, getD_set_ne d acc j k _ (fun h => hkj h.symm)]
      exact hold
  · have h1 : sumAt cs1 P + (acc.getD j d).points.length =
        sumAt acc P + (acc.getD j d).points.dropLast.length :=
      sumAt_set_mem_add acc _ P j hPnd hjP hjn
    have h2 : sumAt (repairOne acc P e) P = sumAt cs1 P := by
      rw [hrepair]
      exact sumAt_set_not_mem cs1 P e _ heP
    have h3 := List.length_dropLast (acc.getD j d).points
    omega

end RepairNonempty

section RepairNonemptyMain

variable {α : Type} [LinearOrderedField α]

theorem repair_fold_nonempty (P : List ℕ) (n : ℕ) (hPn2 : ∀ j ∈ P, j < n) (hPnd : P.Nodup) :
    ∀ (rem : List ℕ) (acc : List (Cluster α)),
      acc.length = n →
      rem.Nodup →
      (∀ e ∈ rem, e < n ∧ e ∉ P) →
      (∀ k, k < n → k ∉ rem → (acc.getD k (dummyCluster (α := α))).points ≠ []) →
      rem.length + P.length ≤ sumAt acc P →
      ∀ k, k < n →
        ((rem.foldl (fun a e => repairOne a P e) acc).getD k (dummyCluster (α := α))).points ≠ []
  | [], acc, hlen, _, _, hkeep, _, k, hk => by
      simpa using hkeep k hk (List.not_mem_nil k)
  | e :: rem, acc, hlen, hnd, hrem, hkeep, hsum, k, hk => by
      have he : e < acc.length := by rw [hlen]; exact (hrem e (by simp)).1
      have heP : e ∉ P := (hrem e (by simp)).2
      have hPn : ∀ j ∈ P, j < acc.length := fun j hj => by rw [hlen]; exact hPn2 j hj
      have hsum1 : 1 + P.length ≤ sumAt acc P := by
        simp only [List.length_cons] at hsum
        omega
      obtain ⟨hnewe, hkeep2, hsumEq⟩ :=
        repairOne_nonempty_step acc P e hPn hPnd he heP hsum1
      simp only [List.foldl_cons]
      have hlen' : (repairOne acc P e).length = n := by rw [repairOne_length, hlen]
      have hnd' : rem.Nodup := (List.nodup_cons.mp hnd).2
      have hrem' : ∀ e' ∈ rem, e' < n ∧ e' ∉ P := fun e' he' => hrem e' (by simp [he'])
      have hkeep' : ∀ m, m < n → m ∉ rem →
          ((repairOne acc P e).getD m (dummyCluster (α := α))).points ≠ [] := by
        intro m hm hmrem
        by_cases hme : m = e
        · subst hme
          exact hnewe
        · refine hkeep2 m (by rw [hlen]; exact hm) hme ?_
          exact hkeep m hm (by simp [hme, hmrem])
      have hsum' : rem.length + P.length ≤ sumAt (repairOne acc P e) P := by
        simp only [List.length_cons] at hsum
        omega
      exact repair_fold_nonempty P n hPn2 hPnd rem (repairOne acc P e) hlen' hnd' hrem'
        hkeep' hsum' k hk

theorem isEmpty_eq_decide_length {β : Type*} (l : List β) :
    l.isEmpty = decide (l.length = 0) := by
  cases l <;> simp

/-- After the empty-cluster repair, no cluster is empty, provided there
are at least as many points in total as clusters. -/
theorem balanceEmptyClusters_nonempty (cs : List (Cluster α))
    (htot : cs.length ≤ totalPoints cs) :
    ∀ cl ∈ balanceEmptyClusters cs, cl.points ≠ [] := by
  set d := (dummyCluster (α := α))
  set n := cs.length with hn
  set E := (List.range n).filter fun k => (cs.getD k d).points.isEmpty with hE
  set P := (List.range n).filter fun k => decide (1 < (cs.getD k d).points.length) with hP
  have hEeq : E = (List.range n).filter fun k => decide ((cs.getD k d).points.length = 0) := by
    rw [hE]
    apply List.filter_congr
    intro k _
    rw [isEmpty_eq_decide_length]
  have hA : (((List.range n).filter fun k =>
          decide (1 < (cs.getD k d).points.length)).map
        (fun k => (cs.getD k d).points.length)).sum + n =
      ((List.range n).filter fun k => decide ((cs.getD k d).points.length = 0)).length +
        ((List.range n).filter fun k =>
          decide (1 < (cs.getD k d).points.length)).length +
        ((List.range n).map (fun k => (cs.getD k d).points.length)).sum := by
    have h0 := sum_filter_classify (fun k => (cs.getD k d).points.length) (List.range n)
    have hlenr : (List.range n).length = n := List.length_range n
    omega
  have hB : ((List.range n).map (fun k => (cs.getD k d).points.length)).sum =
      totalPoints cs := by
    unfold totalPoints
    exact congrArg List.sum (map_range_getD (fun cl => cl.points.length) cs)
  have hsum0 : E.length + P.length ≤ sumAt cs P := by
    have hC : sumAt cs P = (P.map (fun k => (cs.getD k d).points.length)).sum := rfl
    rw [hC, hEeq, hP]
    omega
  have hEnd : E.Nodup := (List.nodup_range n).filter _
  have hPnd : P.Nodup := (List.nodup_range n).filter _
  have hPn : ∀ j ∈ P, j < n := by
    intro j hj
    rw [hP] at hj
    exact List.mem_range.mp (List.mem_of_mem_filter hj)
  have hrem : ∀ e ∈ E, e < n ∧ e ∉ P := by
    intro e heE
    rw [hE] at heE
    have h1 : e < n := List.mem_range.mp (List.mem_of_mem_filter heE)
    have h2 : (cs.getD e d).points.isEmpty = true := (List.mem_filter.mp heE).2
    refine ⟨h1, ?_⟩
    intro heP
    rw [hP] at heP
    have h3 := (List.mem_filter.mp heP).2
    rw [List.isEmpty_iff] at h2
    rw [h2] at h3
    simp at h3
  have hkeep0 : ∀ k, k < n → k ∉ E → (cs.getD k d).points ≠ [] := by
    intro k hk hkE hnil
    apply hkE
    rw [hE]
    apply List.mem_filter.mpr
    refine ⟨List.mem_range.mpr hk, ?_⟩
    rw [hnil]
    rfl
  have hmain := repair_fold_nonempty P n hPn hPnd E cs hn.symm hEnd hrem hkeep0 hsum0
  have hfold : balanceEmptyClusters cs = E.foldl (fun a e => repairOne a P e) cs := rfl
  intro cl hcl
  have hlenb : (balanceEmptyClusters cs).length = n := by
    rw [balanceEmptyClusters_length]
  rcases List.mem_iff_getElem.mp hcl with ⟨k, hklen, hk⟩
  have hkn : k < n := hlenb ▸ hklen
  have hres := hmain k hkn
  rw [← hfold] at hres
  rw [List.getD_eq_getElem _ _ hklen] at hres
  rw [hk] at hres
  exact hres

end RepairNonemptyMain

section Assembly

variable {α : Type} [LinearOrderedField α]

theorem mapIdxFrom_mem {β γ : Type*} (f : ℕ → β → γ) :
    ∀ (l : List β) (k : ℕ) (c : γ), c ∈ mapIdxFrom f k l → ∃ i b, b ∈ l ∧ c = f i b
  | [], k, c, h => by simp [mapIdxFrom] at h
  | b :: bs, k, c, h => by
      rcases List.mem_cons.mp h with h1 | h1
      · exact ⟨k, b, by simp, h1⟩
      · rcases mapIdxFrom_mem f bs (k + 1) c h1 with ⟨i, b', hb', hc⟩
        exact ⟨i, b', by simp [hb'], hc⟩

theorem getD_mem_of_lt {β : Type*} (d : β) (l : List β) (k : ℕ) (hk : k < l.length) :
    l.getD k d ∈ l := by
  rw [List.getD_eq_getElem _ _ hk]
  exact List.getElem_mem hk

theorem hasPointId_iff (cs : List (Cluster α)) (x : ℕ) :
    hasPointId cs x ↔ x ∈ (allPoints cs).map Point.id := by
  constructor
  · rintro ⟨k, hk, p, hp, hpx⟩
    rw [List.mem_map]
    refine ⟨p, ?_, hpx⟩
    unfold allPoints
    rw [List.mem_join]
    refine ⟨(cs.getD k (dummyCluster (α := α))).points, ?_, hp⟩
    rw [List.mem_map]
    exact ⟨cs.getD k (dummyCluster (α := α)), getD_mem_of_lt _ _ _ hk, rfl⟩
  · intro hx
    rw [List.mem_map] at hx
    rcases hx with ⟨p, hp, hpx⟩
    unfold allPoints at hp
    rw [List.mem_join] at hp
    rcases hp with ⟨l, hl, hpl⟩
    rw [List.mem_map] at hl
    rcases hl with ⟨cl, hcl, hlcl⟩
    rcases List.mem_iff_getElem.mp hcl with ⟨k, hk, hkcl⟩
    refine ⟨k, hk, p, ?_, hpx⟩
    rw [List.getD_eq_getElem _ _ hk, hkcl, hlcl]
    exact hpl

theorem allPoints_length (cs : List (Cluster α)) :
    (allPoints cs).length = totalPoints cs := by
  unfold allPoints totalPoints
  rw [List.length_join, List.map_map]
  rfl

theorem nodup_subset_length_le (ids : List ℕ) (ys : List ℕ) (hnd : ids.Nodup)
    (hsub : ∀ x ∈ ids, x ∈ ys) : ids.length ≤ ys.length := by
  have h1 : ids.toFinset.card = ids.length := List.toFinset_card_of_nodup hnd
  have h2 : ids.toFinset ⊆ ys.toFinset := by
    intro x hx
    rw [List.mem_toFinset] at hx ⊢
    exact hsub x hx
  have h3 : ys.toFinset.card ≤ ys.length := ys.toFinset_card_le
  have h4 := Finset.card_le_card h2
  omega

end Assembly

section BalanceAssembly

variable {α : Type} [LinearOrderedField α]

theorem balanceStep_ids (dist : α → α → α → α → α) (homeBase : Coord α) (target tol : α)
    (st : List (Cluster α) × Bool) (i : ℕ) :
    (balanceStep dist homeBase target tol st i).1.map Cluster.id = st.1.map Cluster.id := by
  unfold balanceStep
  dsimp only
  split
  · match hfind : findBestCustomerToMove dist homeBase
        (st.1.getD i (dummyCluster (α := α))) st.1 true with
    | some cj => simp only [hfind]; exact move_ids _ _ _ _
    | none => simp only [hfind]
  · split
    · match hfind : findBestCustomerToMove dist homeBase
          (st.1.getD i (dummyCluster (α := α))) st.1 false with
      | some cj => simp only [hfind]; exact move_ids _ _ _ _
      | none => simp only [hfind]
    · rfl

theorem balancePass_ids (dist : α → α → α → α → α) (homeBase : Coord α) (target tol : α)
    (cs : List (Cluster α)) :
    (balancePass dist homeBase target tol cs).1.map Cluster.id = cs.map Cluster.id := by
  unfold balancePass
  refine foldl_invariant
    (fun (st : List (Cluster α) × Bool) => st.1.map Cluster.id = cs.map Cluster.id)
    _ _ _ rfl ?_
  intro st i hi h
  rw [balanceStep_ids, h]

theorem balanceLoop_ids (dist : α → α → α → α → α) (homeBase : Coord α) (target tol : α) :
    ∀ (fuel : ℕ) (cs : List (Cluster α)),
      (balanceLoop dist homeBase target tol fuel cs).map Cluster.id = cs.map Cluster.id
  | 0, cs => rfl
  | fuel + 1, cs => by
      simp only [balanceLoop]
      split
      · exact balancePass_ids dist homeBase target tol cs
      · rw [balanceLoop_ids dist homeBase target tol fuel _,
          balancePass_ids dist homeBase target tol cs]

theorem balanceClustersByDriveTime_ids (dist : α → α → α → α → α)
    (homeBase : Option (Coord α)) (cs : List (Cluster α)) :
    (balanceClustersByDriveTime dist homeBase cs).map Cluster.id = cs.map Cluster.id := by
  unfold balanceClustersByDriveTime
  match homeBase with
  | none => rfl
  | some hb =>
      dsimp only
      rw [balanceEmptyClusters_ids, balanceLoop_ids]

/-- With a home base, the whole balancing phase (loop plus final repair)
yields only non-empty clusters whenever every one of a duplicate-free id
list is present among the points and there are at least as many ids as
clusters. -/
theorem balanceClustersByDriveTime_nonempty (dist : α → α → α → α → α) (hb : Coord α)
    (cs : List (Cluster α)) (ids0 : List ℕ) (hnd : ids0.Nodup)
    (hinv : balInv cs.length ids0 cs) (hlen : cs.length ≤ ids0.length) :
    ∀ cl ∈ balanceClustersByDriveTime dist (some hb) cs, cl.points ≠ [] := by
  unfold balanceClustersByDriveTime
  dsimp only
  set target := calculateTotalDriveTime dist hb cs / (cs.length : α) with htarget
  set tol := target * (15 / 100 : α) with htol
  set bl := balanceLoop dist hb target tol 20 cs with hbl
  have hinvL : balInv cs.length ids0 bl :=
    balanceLoop_inv dist hb target tol cs.length ids0 20 cs hinv.1 hinv
  have hcover : ∀ x ∈ ids0, x ∈ (allPoints bl).map Point.id := by
    intro x hx
    rw [← hasPointId_iff]
    exact hinvL.2 x hx
  have hcard : ids0.length ≤ totalPoints bl := by
    have h1 := nodup_subset_length_le ids0 ((allPoints bl).map Point.id) hnd hcover
    rw [List.length_map, allPoints_length] at h1
    exact h1
  have htot : bl.length ≤ totalPoints bl := by
    rw [hinvL.1]
    omega
  exact balanceEmptyClusters_nonempty bl htot

end BalanceAssembly

section HouseGroupLemmas

variable {α : Type} [LinearOrderedField α]

theorem mapIdxFrom_id {β : Type*} : ∀ (l : List β) (k : ℕ), mapIdxFrom (fun _ b => b) k l = l
  | [], _ => rfl
  | b :: bs, k => by simp [mapIdxFrom, mapIdxFrom_id bs (k + 1)]

/-- Closed form of the inner scan of `identifyHouseGroups`, valid when the
scanned suffix has duplicate-free ids: the group accumulates exactly the
not-yet-used points within the radius, and exactly their ids are added to
the used set. -/
theorem houseGroupScan_fold_spec (dist : α → α → α → α → α) (seed : Point α) :
    ∀ (rest : List (Point α)) (g0 : List (Point α)) (u0 : List ℕ),
      (rest.map Point.id).Nodup →
      rest.foldl
        (fun st q =>
          if st.2.contains q.id then st
          else if dist seed.lat seed.lng q.lat q.lng ≤ HOUSE_GROUP_DISTANCE then
            (st.1 ++ [q], st.2 ++ [q.id])
          else st)
        (g0, u0) =
      (g0 ++ rest.filter (fun q => !(u0.contains q.id) &&
          decide (dist seed.lat seed.lng q.lat q.lng ≤ HOUSE_GROUP_DISTANCE)),
       u0 ++ (rest.filter (fun q => !(u0.contains q.id) &&
          decide (dist seed.lat seed.lng q.lat q.lng ≤ HOUSE_GROUP_DISTANCE))).map Point.id)
  | [], g0, u0, _ => by simp
  | q :: rest, g0, u0, hnd => by
      have hndr : (rest.map Point.id).Nodup := by
        simp only [List.map_cons, List.nodup_cons] at hnd
        exact hnd.2
      have hqid : q.id ∉ rest.map Point.id := by
        simp only [List.map_cons, List.nodup_cons] at hnd
        exact hnd.1
      simp only [List.foldl_cons, List.filter_cons]
      by_cases hu : u0.contains q.id
      · rw [if_pos hu]
        have hpred : (!(u0.contains q.id) &&
            decide (dist seed.lat seed.lng q.lat q.lng ≤ HOUSE_GROUP_DISTANCE)) = false := by
          rw [hu]
          rfl
        rw [hpred]
        exact houseGroupScan_fold_spec dist seed rest g0 u0 hndr
      · rw [if_neg hu]
        by_cases hnear : dist seed.lat seed.lng q.lat q.lng ≤ HOUSE_GROUP_DISTANCE
        · rw [if_pos hnear]
          have hu2 : q.id ∉ u0 := by simpa using hu
          have hpred : (!(u0.contains q.id) &&
              decide (dist seed.lat seed.lng q.lat q.lng ≤ HOUSE_GROUP_DISTANCE)) = true := by
            simp [hu2, hnear]
          rw [hpred]
          have ih := houseGroupScan_fold_spec dist seed rest (g0 ++ [q]) (u0 ++ [q.id]) hndr
          rw [ih]
          have hfc : rest.filter (fun q' => !((u0 ++ [q.id]).contains q'.id) &&
                decide (dist seed.lat seed.lng q'.lat q'.lng ≤ HOUSE_GROUP_DISTANCE)) =
              rest.filter (fun q' => !(u0.contains q'.id) &&
                decide (dist seed.lat seed.lng q'.lat q'.lng ≤ HOUSE_GROUP_DISTANCE)) := by
            apply List.filter_congr
            intro q' hq'
            have hne : q'.id ≠ q.id := by
              intro h
              exact hqid (h ▸ List.mem_map_of_mem Point.id hq')
            have hq2 : (u0 ++ [q.id]).contains q'.id = u0.contains q'.id := by
              simp [hne]
            rw [hq2]
          rw [hfc]
          simp
        · rw [if_neg hnear]
          have hpred : (!(u0.contains q.id) &&
              decide (dist seed.lat seed.lng q.lat q.lng ≤ HOUSE_GROUP_DISTANCE)) = false := by
            simp [hnear]
          rw [hpred]
          exact houseGroupScan_fold_spec dist seed rest g0 u0 hndr

/-- A generic split of a filter along a second predicate, up to
permutation. -/
theorem filter_split_perm {β : Type*} (p q : β → Bool) :
    ∀ (l : List β), (l.filter p).Perm
      (l.filter (fun x => p x && q x) ++ l.filter (fun x => p x && !(q x)))
  | [] => by simp
  | b :: l => by
      have ih := filter_split_perm p q l
      by_cases hp : p b = true
      · by_cases hq : q b = true
        · simp only [List.filter_cons, hp, hq, Bool.and_self, Bool.not_true, Bool.and_false,
            if_true, Bool.false_eq_true, if_false, List.cons_append]
          exact ih.cons b
        · have hq' : q b = false := by simpa using hq
          simp only [List.filter_cons, hp, hq', Bool.true_and, Bool.not_false, Bool.and_true,
            if_true, Bool.false_eq_true, if_false]
          exact (ih.cons b).trans List.perm_middle.symm
      · have hp' : p b = false := by simpa using hp
        simp only [List.filter_cons, hp', Bool.false_and, Bool.false_eq_true, if_false]
        exact ih

end HouseGroupLemmas

section HouseGroupMain

variable {α : Type} [LinearOrderedField α]

theorem head?_append_left {β : Type*} (l l' : List β) (a : β) (h : l.head? = some a) :
    (l ++ l').head? = some a := by
  cases l with
  | nil => simp at h
  | cons b bs => simpa using h

theorem houseGroupScan_spec (dist : α → α → α → α → α) (seed : Point α)
    (rest : List (Point α)) (used : List ℕ) (hndr : (rest.map Point.id).Nodup)
    (hseed : seed.id ∉ rest.map Point.id) :
    houseGroupScan dist seed rest used =
      (seed :: rest.filter (fun q => !(used.contains q.id) &&
          decide (dist seed.lat seed.lng q.lat q.lng ≤ HOUSE_GROUP_DISTANCE)),
       (used ++ [seed.id]) ++ (rest.filter (fun q => !(used.contains q.id) &&
          decide (dist seed.lat seed.lng q.lat q.lng ≤ HOUSE_GROUP_DISTANCE))).map Point.id) := by
  unfold houseGroupScan
  rw [houseGroupScan_fold_spec dist seed rest [seed] (used ++ [seed.id]) hndr]
  have hfc : rest.filter (fun q => !((used ++ [seed.id]).contains q.id) &&
        decide (dist seed.lat seed.lng q.lat q.lng ≤ HOUSE_GROUP_DISTANCE)) =
      rest.filter (fun q => !(used.contains q.id) &&
        decide (dist seed.lat seed.lng q.lat q.lng ≤ HOUSE_GROUP_DISTANCE)) := by
    apply List.filter_congr
    intro q hq
    have hne : q.id ≠ seed.id := by
      intro h
      exact hseed (h ▸ List.mem_map_of_mem Point.id hq)
    have hcq : (used ++ [seed.id]).contains q.id = used.contains q.id := by
      simp [hne]
    rw [hcq]
  rw [hfc]
  rfl

theorem houseGroupScan_head_radius (dist : α → α → α → α → α) (seed : Point α)
    (rest : List (Point α)) (used : List ℕ) :
    (houseGroupScan dist seed rest used).1.head? = some seed ∧
      ∀ q ∈ (houseGroupScan dist seed rest used).1,
        q = seed ∨ dist seed.lat seed.lng q.lat q.lng ≤ HOUSE_GROUP_DISTANCE := by
  unfold houseGroupScan
  refine foldl_invariant
    (fun (st : List (Point α) × List ℕ) => st.1.head? = some seed ∧
      ∀ q ∈ st.1, q = seed ∨ dist seed.lat seed.lng q.lat q.lng ≤ HOUSE_GROUP_DISTANCE)
    _ _ _ ⟨rfl, by simp⟩ ?_
  intro st q hq hP
  dsimp only
  split
  · exact hP
  · split
    · refine ⟨head?_append_left _ _ _ hP.1, ?_⟩
      intro q' hq'
      rcases List.mem_append.mp hq' with h | h
      · exact hP.2 q' h
      · rw [List.mem_singleton.mp h]
        right
        assumption
    · exact hP

theorem identifyHouseGroupsAux_mem (dist : α → α → α → α → α) :
    ∀ (ps : List (Point α)) (used : List ℕ) (g : List (Point α)),
      g ∈ identifyHouseGroupsAux dist ps used →
      ∃ seed rest' used', g = (houseGroupScan dist seed rest' used').1
  | [], used, g, h => by simp [identifyHouseGroupsAux] at h
  | p :: rest, used, g, h => by
      simp only [identifyHouseGroupsAux] at h
      split at h
      · exact identifyHouseGroupsAux_mem dist rest used g h
      · rcases List.mem_cons.mp h with h1 | h1
        · exact ⟨p, rest, used, h1⟩
        · exact identifyHouseGroupsAux_mem dist rest _ g h1

theorem identifyHouseGroupsAux_join_perm (dist : α → α → α → α → α) :
    ∀ (ps : List (Point α)) (used : List ℕ), (ps.map Point.id).Nodup →
      (((identifyHouseGroupsAux dist ps used).join).Perm
        (ps.filter (fun p => !(used.contains p.id))))
  | [], used, _ => by simp [identifyHouseGroupsAux]
  | p :: rest, used, hnd => by
      have hndr : (rest.map Point.id).Nodup := by
        simp only [List.map_cons, List.nodup_cons] at hnd
        exact hnd.2
      have hpid : p.id ∉ rest.map Point.id := by
        simp only [List.map_cons, List.nodup_cons] at hnd
        exact hnd.1
      simp only [identifyHouseGroupsAux]
      split
      · have ih := identifyHouseGroupsAux_join_perm dist rest used hndr
        have hpred : (!(used.contains p.id) : Bool) = false := by
          simp only [Bool.not_eq_false']
          assumption
        simp only [List.filter_cons, hpred, Bool.false_eq_true, if_false]
        exact ih
      · rw [houseGroupScan_spec dist p rest used hndr hpid]
        dsimp only
        set nearF := rest.filter (fun q => !(used.contains q.id) &&
          decide (dist p.lat p.lng q.lat q.lng ≤ HOUSE_GROUP_DISTANCE)) with hnearF
        set used' := (used ++ [p.id]) ++ nearF.map Point.id with hused'
        have ih := identifyHouseGroupsAux_join_perm dist rest used' hndr
        have hinj : ∀ x ∈ rest, ∀ y ∈ rest, x.id = y.id → x = y := by
          intro x hx y hy hxy
          exact List.inj_on_of_nodup_map hndr hx hy hxy
        have hfilter2 : rest.filter (fun q => !(used'.contains q.id)) =
            rest.filter (fun q => (!(used.contains q.id)) &&
              !((!(used.contains q.id)) &&
                decide (dist p.lat p.lng q.lat q.lng ≤ HOUSE_GROUP_DISTANCE))) := by
          apply List.filter_congr
          intro q hq
          have hqp : q.id ≠ p.id := by
            intro h
            exact hpid (h ▸ List.mem_map_of_mem Point.id hq)
          have hmemF : q.id ∈ nearF.map Point.id ↔ q ∈ nearF := by
            constructor
            · intro hm
              rcases List.mem_map.mp hm with ⟨q', hq', hid⟩
              have hq'rest : q' ∈ rest := List.mem_of_mem_filter (hnearF ▸ hq')
              rw [← hinj q' hq'rest q hq hid]
              exact hq'
            · intro hm
              exact List.mem_map_of_mem Point.id hm
          have hqF : q ∈ nearF ↔ ((!(used.contains q.id)) &&
              decide (dist p.lat p.lng q.lat q.lng ≤ HOUSE_GROUP_DISTANCE)) = true := by
            rw [hnearF]
            rw [List.mem_filter]
            simp [hq]
          by_cases hu : used.contains q.id
          · have humem : q.id ∈ used := by simpa using hu
            have h1 : used'.contains q.id = true := by
              rw [hused']
              simp [humem]
            rw [h1, hu]
            rfl
          · have hu' : used.contains q.id = false := by simpa using hu
            by_cases hnear2 : q ∈ nearF
            · have h1 : used'.contains q.id = true := by
                rw [hused']
                have hm2 : q.id ∈ nearF.map Point.id := hmemF.mpr hnear2
                simp [hm2]
              have hd : decide (dist p.lat p.lng q.lat q.lng ≤ HOUSE_GROUP_DISTANCE) = true := by
                have h3 := hqF.mp hnear2
                rw [hu'] at h3
                simpa using h3
              rw [h1, hu', hd]
              rfl
            · have h1 : used'.contains q.id = false := by
                rw [hused']
                have hF : q.id ∉ nearF.map Point.id := fun hm => hnear2 (hmemF.mp hm)
                have humem : q.id ∉ used := by simpa using hu
                simp [hqp, hF, humem]
              have hd : decide (dist p.lat p.lng q.lat q.lng ≤ HOUSE_GROUP_DISTANCE) = false := by
                rcases Bool.eq_false_or_eq_true
                  (decide (dist p.lat p.lng q.lat q.lng ≤ HOUSE_GROUP_DISTANCE)) with h | h
                · refine absurd (hqF.mpr ?_) hnear2
                  rw [hu', h]
                  rfl
                · exact h
              rw [h1, hu', hd]
              rfl
        have hsplit := filter_split_perm (fun q => !(used.contains q.id))
          (fun q => decide (dist p.lat p.lng q.lat q.lng ≤ HOUSE_GROUP_DISTANCE)) rest
        have hppred : (!(used.contains p.id) : Bool) = true := by
          simp only [Bool.not_eq_eq_eq_not, Bool.not_true]
          simpa using ‹¬used.contains p.id = true›
        simp only [List.join_cons, List.filter_cons, hppred, if_true]
        refine (List.Perm.append (List.Perm.refl (p :: nearF)) ih).trans ?_
        rw [hfilter2]
        have : (p :: nearF) ++ rest.filter (fun q => (!(used.contains q.id)) &&
            !((!(used.contains q.id)) &&
              decide (dist p.lat p.lng q.lat q.lng ≤ HOUSE_GROUP_DISTANCE))) =
            p :: (nearF ++ rest.filter (fun q => (!(used.contains q.id)) &&
            !((!(used.contains q.id)) &&
              decide (dist p.lat p.lng q.lat q.lng ≤ HOUSE_GROUP_DISTANCE)))) := by
          simp
        rw [this]
        refine List.Perm.cons p ?_
        have hsecond : rest.filter (fun q => (!(used.contains q.id)) &&
            !((!(used.contains q.id)) &&
              decide (dist p.lat p.lng q.lat q.lng ≤ HOUSE_GROUP_DISTANCE))) =
            rest.filter (fun q => (!(used.contains q.id)) &&
              !(decide (dist p.lat p.lng q.lat q.lng ≤ HOUSE_GROUP_DISTANCE))) := by
          apply List.filter_congr
          intro q hq
          by_cases hu : used.contains q.id
          · rw [hu]
            rfl
          · have hu' : used.contains q.id = false := by simpa using hu
            rw [hu']
            cases hdec : decide (dist p.lat p.lng q.lat q.lng ≤ HOUSE_GROUP_DISTANCE) <;> rfl
        rw [hsecond, hnearF]
        exact hsplit.symm

end HouseGroupMain

/-! ## Further balancing and k-means evaluation lemmas -/

section BalanceFixpoints

variable {α : Type} [LinearOrderedField α]

theorem findSome?_const_none {β γ : Type*} (f : β → Option γ) (h : ∀ x, f x = none) :
    ∀ l : List β, l.findSome? f = none
  | [] => rfl
  | x :: xs => by
      rw [List.findSome?_cons, h x]
      exact findSome?_const_none f h xs

/-- The scan of `findBestCustomerToMove` does not depend on the customer, so
the returned customer is always the cluster's first point in iteration order,
paired with the first qualifying target index. -/
theorem findBest_head_scan (dist : α → α → α → α → α) (hb : Coord α)
    (cl : Cluster α) (cs : List (Cluster α)) (lighten : Bool) :
    findBestCustomerToMove dist hb cl cs lighten =
      (scanTargetAux dist hb cl.id (calculateClusterDriveTime dist hb cl) lighten 0 cs).bind
        (fun j => cl.points.head?.map fun c => (c, j)) := by
  unfold findBestCustomerToMove
  dsimp only
  match hscan : scanTargetAux dist hb cl.id (calculateClusterDriveTime dist hb cl)
      lighten 0 cs with
  | some j =>
      match cl.points with
      | [] => rfl
      | c :: rest =>
          rw [List.findSome?_cons]
          rfl
  | none =>
      rw [Option.none_bind]
      apply findSome?_const_none
      intro x
      rfl

theorem foldl_fixpoint {β γ : Type*} (f : γ → β → γ) (b : γ) :
    ∀ l : List β, (∀ a ∈ l, f b a = b) → l.foldl f b = b
  | [], _ => rfl
  | a :: l, h => by
      rw [List.foldl_cons, h a (List.mem_cons_self a l)]
      exact foldl_fixpoint f b l (fun x hx => h x (List.mem_cons_of_mem a hx))

/-- A cluster whose drive time lies inside the `[target - tol, target + tol]`
band triggers neither branch of the balancing step. -/
theorem balanceStep_id_of_band (dist : α → α → α → α → α) (hb : Coord α)
    (target tol : α) (cs : List (Cluster α)) (i : ℕ) (hi : i < cs.length)
    (hband : ∀ cl ∈ cs, target - tol ≤ calculateClusterDriveTime dist hb cl ∧
      calculateClusterDriveTime dist hb cl ≤ target + tol) :
    balanceStep dist hb target tol (cs, true) i = (cs, true) := by
  have hcl := hband (cs.getD i dummyCluster)
    (getD_mem_of_lt dummyCluster cs i hi)
  unfold balanceStep
  dsimp only
  rw [if_neg (not_lt.mpr hcl.2), if_neg (not_lt.mpr hcl.1)]

/-- A fully in-band state makes a whole balancing pass a no-op with the
`balanced` flag left `true`. -/
theorem balancePass_id_of_band (dist : α → α → α → α → α) (hb : Coord α)
    (target tol : α) (cs : List (Cluster α))
    (hband : ∀ cl ∈ cs, target - tol ≤ calculateClusterDriveTime dist hb cl ∧
      calculateClusterDriveTime dist hb cl ≤ target + tol) :
    balancePass dist hb target tol cs = (cs, true) := by
  unfold balancePass
  apply foldl_fixpoint
  intro i hi
  exact balanceStep_id_of_band dist hb target tol cs i (List.mem_range.mp hi) hband

theorem balanceLoop_stop (dist : α → α → α → α → α) (hb : Coord α)
    (target tol : α) (fuel : ℕ) (cs : List (Cluster α))
    (h : balancePass dist hb target tol cs = (cs, true)) :
    balanceLoop dist hb target tol (fuel + 1) cs = cs := by
  simp only [balanceLoop]
  rw [h]
  rfl

/-- With no empty cluster the repair collects no empty index, so it returns
the state unchanged. -/
theorem balanceEmptyClusters_id_of_nonempty (cs : List (Cluster α))
    (h : ∀ cl ∈ cs, cl.points ≠ []) :
    balanceEmptyClusters cs = cs := by
  unfold balanceEmptyClusters
  dsimp only
  have hE : (List.range cs.length).filter
      (fun k => (cs.getD k (dummyCluster (α := α))).points.isEmpty) = [] := by
    rw [List.filter_eq_nil]
    intro k hk
    have hne := h _ (getD_mem_of_lt (dummyCluster (α := α)) cs k (List.mem_range.mp hk))
    simpa [List.isEmpty_iff] using hne
  rw [hE]
  rfl

theorem kmeansLoop_stop (dist : α → α → α → α → α) (points : List (Point α))
    (fuel : ℕ) (cents : List (Coord α))
    (h : kmeansConverged dist cents (newCentroids (assignClusters dist points cents)) = true) :
    kmeansLoop dist points (fuel + 1) cents = assignClusters dist points cents := by
  simp only [kmeansLoop]
  rw [h, Bool.or_true]
  rfl

/-- The full planner run on three coincident visits, two days, no home base
and an exhausted (all-zero) random source, for any metric that vanishes on
the diagonal at the origin: the k-means seeds coincide, every visit lands in
bucket 0 by the strict-`<` tie rule, the loop converges immediately, and —
`balanceClustersByDriveTime` returning early without a home base — the empty
bucket 1 survives to the output. -/
theorem coincident_two_day_run (dist : α → α → α → α → α)
    (h0 : dist 0 0 0 0 = 0) :
    clusterCustomers dist (fun _ => 0) [⟨0, 0, 0⟩, ⟨1, 0, 0⟩, ⟨2, 0, 0⟩] 2 none =
      [⟨0, ⟨0, 0⟩, [⟨0, 0, 0⟩, ⟨1, 0, 0⟩, ⟨2, 0, 0⟩]⟩, ⟨1, ⟨0, 0⟩, []⟩] := by
  have hbounds : getBounds ([⟨0, 0, 0⟩, ⟨1, 0, 0⟩, ⟨2, 0, 0⟩] : List (Point α)) =
      ⟨0, 0, 0, 0⟩ := by
    simp [getBounds, jsMin, jsMax]
  have hcents : initCentroids (fun _ => (0 : α)) [⟨0, 0, 0⟩, ⟨1, 0, 0⟩, ⟨2, 0, 0⟩] 2 none =
      [⟨0, 0⟩, ⟨0, 0⟩] := by
    unfold initCentroids
    rw [hbounds]
    simp [randCentroid, List.range_succ]
  have hnear : ∀ i : ℕ, nearestClusterIndex dist [(⟨0, 0⟩ : Coord α), ⟨0, 0⟩] ⟨i, 0, 0⟩ = 0 := by
    intro i
    simp [nearestClusterIndex, nearestAux, h0]
  have hassign : assignClusters dist [⟨0, 0, 0⟩, ⟨1, 0, 0⟩, ⟨2, 0, 0⟩]
      [(⟨0, 0⟩ : Coord α), ⟨0, 0⟩] =
      [⟨0, ⟨0, 0⟩, [⟨0, 0, 0⟩, ⟨1, 0, 0⟩, ⟨2, 0, 0⟩]⟩, ⟨1, ⟨0, 0⟩, []⟩] := by
    unfold assignClusters
    simp [mapIdxFrom, List.filter, hnear]
  have hfresh : newCentroids
      ([⟨0, ⟨0, 0⟩, [⟨0, 0, 0⟩, ⟨1, 0, 0⟩, ⟨2, 0, 0⟩]⟩, ⟨1, ⟨0, 0⟩, []⟩] :
        List (Cluster α)) = [⟨0, 0⟩, ⟨0, 0⟩] := by
    simp [newCentroids, meanLat, meanLng]
  have hconv : kmeansConverged dist [(⟨0, 0⟩ : Coord α), ⟨0, 0⟩] [⟨0, 0⟩, ⟨0, 0⟩] = true := by
    simp only [kmeansConverged, List.zip_cons_cons, List.zip_nil_right, List.all_cons,
      List.all_nil, h0, Bool.and_true, Bool.and_eq_true, decide_eq_true_eq]
    constructor <;> positivity
  have hloop : kmeansLoop dist [⟨0, 0, 0⟩, ⟨1, 0, 0⟩, ⟨2, 0, 0⟩] 20
      [(⟨0, 0⟩ : Coord α), ⟨0, 0⟩] =
      [⟨0, ⟨0, 0⟩, [⟨0, 0, 0⟩, ⟨1, 0, 0⟩, ⟨2, 0, 0⟩]⟩, ⟨1, ⟨0, 0⟩, []⟩] := by
    rw [show (20 : ℕ) = 19 + 1 from rfl,
      kmeansLoop_stop dist _ 19 _ (by rw [hassign, hfresh]; exact hconv), hassign]
  unfold clusterCustomers
  rw [if_neg (by norm_num), if_neg (by norm_num)]
  unfold performKMeansClustering
  have h2 : (2 : ℤ).toNat = 2 := rfl
  rw [h2, hcents, hloop]
  rfl

end BalanceFixpoints

/-! ## Claim theorems -/

section ConcreteRuns

attribute [local semireducible] Rat.add Rat.sub Rat.mul Rat.inv

/-- A concrete computable metric over `ℚ` used to instantiate witnesses
and concrete runs: the coordinate-wise absolute difference.  On the
concrete inputs below all points share latitude 0, where the haversine
metric is `3959·π/180` times the longitude difference (for differences
below 180°), and every comparison the balancer makes is invariant under
scaling the metric, so the runs below take the same branches the source
takes. -/
def flatDist : ℚ → ℚ → ℚ → ℚ → ℚ :=
  fun lat1 lng1 lat2 lng2 =>
    (if lat2 - lat1 < 0 then lat1 - lat2 else lat2 - lat1) +
    (if lng2 - lng1 < 0 then lng1 - lng2 else lng2 - lng1)

/-- C9: the haversine metric is symmetric, non-negative, and zero on the
diagonal. -/
theorem c9_distance_algebra (lat1 lng1 lat2 lng2 : ℝ) :
    calculateDistance lat1 lng1 lat2 lng2 = calculateDistance lat2 lng2 lat1 lng1 ∧
    0 ≤ calculateDistance lat1 lng1 lat2 lng2 ∧
    calculateDistance lat1 lng1 lat1 lng1 = 0 := by
  refine ⟨?_, ?_, calculateDistance_self lat1 lng1⟩
  · unfold calculateDistance
    rw [haversineA_symm]
  · unfold calculateDistance
    have h := atan2_nonneg (Real.sqrt (haversineA lat1 lng1 lat2 lng2))
      (Real.sqrt (1 - haversineA lat1 lng1 lat2 lng2)) (Real.sqrt_nonneg _)
    have h2 : (0 : ℝ) ≤ 2 := by norm_num
    have h3 : (0 : ℝ) ≤ 3959 := by norm_num
    exact mul_nonneg h3 (mul_nonneg h2 h)

/-- C8: an empty visit list or a non-positive day count yields the empty
plan (and, the embedding being a total function, no exception). -/
theorem c8_total_on_invalid_arguments {α : Type} [LinearOrderedField α]
    (dist : α → α → α → α → α) (rnd : ℕ → α) (customers : List (Point α)) (numDays : ℤ)
    (homeBase : Option (Coord α)) (h : customers = [] ∨ numDays ≤ 0) :
    clusterCustomers dist rnd customers numDays homeBase = [] := by
  unfold clusterCustomers
  have hcond : customers.length = 0 ∨ numDays ≤ 0 := by
    rcases h with h | h
    · left
      rw [h]
      rfl
    · right
      exact h
  rw [if_pos hcond]

/-- Witness for C8 at `visits = []`, `numDays = 3`. -/
theorem c8_witness :
    (([] : List (Point ℚ)) = [] ∨ (3 : ℤ) ≤ 0) ∧
      clusterCustomers flatDist (fun _ => 0) [] 3 none = [] :=
  ⟨Or.inl rfl, c8_total_on_invalid_arguments flatDist (fun _ => 0) [] 3 none (Or.inl rfl)⟩

/-- C7: with `1 ≤ len(visits) ≤ numDays` the planner returns one
singleton bucket per visit, with `id = index` and the visit's own
coordinate as centroid, skipping clustering and balancing entirely. -/
theorem c7_degenerate_singletons {α : Type} [LinearOrderedField α]
    (dist : α → α → α → α → α) (rnd : ℕ → α) (customers : List (Point α)) (numDays : ℤ)
    (homeBase : Option (Coord α)) (hne : customers ≠ [])
    (hle : (customers.length : ℤ) ≤ numDays) :
    clusterCustomers dist rnd customers numDays homeBase =
      mapIdxFrom (fun i p => ⟨i, ⟨p.lat, p.lng⟩, [p]⟩) 0 customers ∧
    (clusterCustomers dist rnd customers numDays homeBase).length = customers.length := by
  have hpos : 0 < customers.length := List.length_pos.mpr hne
  have hcond : ¬(customers.length = 0 ∨ numDays ≤ 0) := by
    push_neg
    constructor
    · omega
    · omega
  unfold clusterCustomers
  rw [if_neg hcond, if_pos hle]
  exact ⟨rfl, mapIdxFrom_length _ 0 customers⟩

/-- Witness for C7: 3 visits, 5 days, 3 singleton buckets. -/
theorem c7_witness :
    (([⟨0, 0, 0⟩, ⟨1, 1, 1⟩, ⟨2, 2, 2⟩] : List (Point ℚ)) ≠ [] ∧
      (([⟨0, 0, 0⟩, ⟨1, 1, 1⟩, ⟨2, 2, 2⟩] : List (Point ℚ)).length : ℤ) ≤ 5) ∧
      (clusterCustomers flatDist (fun _ => 0) [⟨0, 0, 0⟩, ⟨1, 1, 1⟩, ⟨2, 2, 2⟩] 5 none =
        mapIdxFrom (fun i p => ⟨i, ⟨p.lat, p.lng⟩, [p]⟩) 0 [⟨0, 0, 0⟩, ⟨1, 1, 1⟩, ⟨2, 2, 2⟩] ∧
      (clusterCustomers flatDist (fun _ => 0)
        [⟨0, 0, 0⟩, ⟨1, 1, 1⟩, ⟨2, 2, 2⟩] 5 none).length =
        ([⟨0, 0, 0⟩, ⟨1, 1, 1⟩, ⟨2, 2, 2⟩] : List (Point ℚ)).length) :=
  ⟨⟨by decide, by decide⟩,
    c7_degenerate_singletons flatDist (fun _ => 0) _ 5 none (by decide) (by decide)⟩

/-- C6: the day sequencer returns a permutation of its input, for every
visit list and every (present or absent) home base; being a pure function
of its input, it cannot mutate the caller's list. -/
theorem c6_sequencer_permutation {α : Type} [LinearOrderedField α]
    (dist : α → α → α → α → α) (customers : List (Point α)) (homeBase : Option (Coord α)) :
    (optimizeDayRoute dist customers homeBase).Perm customers :=
  optimizeDayRoute_perm dist customers homeBase

/-- C10: every bucket's `id` equals its position in the returned array,
on every input and through k-means, balancing and repair. -/
theorem c10_bucket_ids {α : Type} [LinearOrderedField α]
    (dist : α → α → α → α → α) (rnd : ℕ → α) (customers : List (Point α)) (numDays : ℤ)
    (homeBase : Option (Coord α)) :
    (clusterCustomers dist rnd customers numDays homeBase).map Cluster.id =
      List.range (clusterCustomers dist rnd customers numDays homeBase).length := by
  unfold clusterCustomers
  split
  · rfl
  · split
    · rw [mapIdxFrom_map, mapIdxFrom_const_eq_range' (fun k => k) 0 customers,
        mapIdxFrom_length, ← List.range_eq_range']
      simp
    · rw [balanceClustersByDriveTime_ids, performKMeans_ids]
      have hlen : (balanceClustersByDriveTime dist homeBase
          (performKMeansClustering dist rnd customers numDays.toNat homeBase)).length =
          numDays.toNat := by
        have h1 := balanceClustersByDriveTime_ids dist homeBase
          (performKMeansClustering dist rnd customers numDays.toNat homeBase)
        have h2 := performKMeans_ids dist rnd customers numDays.toNat homeBase
        have h3 := congrArg List.length (h1.trans h2)
        simpa using h3
      rw [hlen]

/-- C3 (code bug): `identifyStreetGroups` silently drops a visit whose
address fails to parse — here `"Maple Street"`, which has no leading house
number — instead of placing it in a singleton group; a parsable companion
visit is kept.  No exception is thrown (the embedding is total), but the
dropped visit appears in no group, so it is lost from the plan. -/
theorem c3_unparsable_address_dropped :
    parseAddress "Maple Street" = none ∧
    identifyStreetGroups
        ([⟨0, 1, 2, "Maple Street"⟩, ⟨1, 3, 4, "123 Oak St"⟩] : List (APoint ℚ)) =
      [⟨0, [⟨1, 3, 4, "123 Oak St"⟩], ⟨3, 4⟩⟩] := by
  constructor
  · rfl
  · rfl

/-- C1 (code bug): on three visits (ids 0, 1, 2 at longitudes 0.2°, 2°,
2° on the equator) with two days and home base at the origin, the
planner's `'heavier'` rebalancing branch pushes the light bucket's own
first visit into that bucket again while removing nothing (the removal
filters the *other* bucket, where the visit does not occur), so visit 0
ends up twice in bucket 0: the output visit multiset is
`[0, 0, 1] / [2]` for the input `[0, 1, 2]`. -/
theorem c1_duplicated_visit :
    clusterCustomers flatDist (fun _ => (1/2 : ℚ))
        [⟨0, 0, 1/5⟩, ⟨1, 0, 2⟩, ⟨2, 0, 2⟩] 2 (some ⟨0, 0⟩) =
      [⟨0, ⟨0, 4/5⟩, [⟨0, 0, 1/5⟩, ⟨0, 0, 1/5⟩, ⟨1, 0, 2⟩]⟩, ⟨1, ⟨0, 2⟩, [⟨2, 0, 2⟩]⟩] ∧
    ((allPoints (clusterCustomers flatDist (fun _ => (1/2 : ℚ))
        [⟨0, 0, 1/5⟩, ⟨1, 0, 2⟩, ⟨2, 0, 2⟩] 2 (some ⟨0, 0⟩))).map Point.id).count 0 = 2 ∧
    (([⟨0, 0, 1/5⟩, ⟨1, 0, 2⟩, ⟨2, 0, 2⟩] : List (Point ℚ)).map Point.id).count 0 = 1 := by
  refine ⟨by decide, by decide, by decide⟩

/-- C5: the radius-policy grouping partitions the input exactly once
(duplicate-free visit ids, as the data model guarantees), and every member
of a group is the group's seed (its first member) or lies within the 0.1
mile radius of the seed.  The grouping is a pure function of the input
list, hence deterministic given input order. -/
theorem c5_radius_grouping {α : Type} [LinearOrderedField α]
    (dist : α → α → α → α → α) (points : List (Point α))
    (hnd : (points.map Point.id).Nodup) :
    (((identifyHouseGroups dist points).map HouseGroup.customers).join).Perm points ∧
    ∀ g ∈ identifyHouseGroups dist points,
      ∃ seed, g.customers.head? = some seed ∧
        ∀ q ∈ g.customers, q = seed ∨
          dist seed.lat seed.lng q.lat q.lng ≤ HOUSE_GROUP_DISTANCE := by
  constructor
  · have hmap : (identifyHouseGroups dist points).map HouseGroup.customers =
        identifyHouseGroupsAux dist points [] := by
      unfold identifyHouseGroups
      rw [mapIdxFrom_map]
      exact mapIdxFrom_id _ 0
    rw [hmap]
    have h := identifyHouseGroupsAux_join_perm dist points [] hnd
    simpa using h
  · intro g hg
    rcases mapIdxFrom_mem _ _ 0 g hg with ⟨i, gl, hgl, hgeq⟩
    rcases identifyHouseGroupsAux_mem dist points [] gl hgl with ⟨seed, rest', used', hscan⟩
    have hhr := houseGroupScan_head_radius dist seed rest' used'
    refine ⟨seed, ?_, ?_⟩
    · rw [hgeq]
      show gl.head? = some seed
      rw [hscan]
      exact hhr.1
    · intro q hq
      rw [hgeq] at hq
      have hq2 : q ∈ gl := hq
      rw [hscan] at hq2
      exact hhr.2 q hq2

/-- Witness for C5 at three visits with duplicate-free ids. -/
theorem c5_witness :
    (([⟨0, 0, 0⟩, ⟨1, 0, 1/20⟩, ⟨2, 0, 5⟩] : List (Point ℚ)).map Point.id).Nodup ∧
      (((identifyHouseGroups flatDist
          [⟨0, 0, 0⟩, ⟨1, 0, 1/20⟩, ⟨2, 0, 5⟩]).map HouseGroup.customers).join).Perm
        [⟨0, 0, 0⟩, ⟨1, 0, 1/20⟩, ⟨2, 0, 5⟩] :=
  ⟨by decide, (c5_radius_grouping flatDist _ (by decide)).1⟩

/-- C2 (amended): with a home base, `1 ≤ numDays ≤ len(visits)` and
duplicate-free visit ids, every returned bucket is non-empty: the degenerate
path returns singletons, and on the main path the final empty-cluster repair
(which runs only when a home base is present) refills every empty bucket. -/
theorem c2_nonempty_with_homebase {α : Type} [LinearOrderedField α]
    (dist : α → α → α → α → α) (rnd : ℕ → α) (customers : List (Point α)) (numDays : ℤ)
    (hb : Coord α) (h1 : 1 ≤ numDays) (h2 : numDays ≤ (customers.length : ℤ))
    (hnd : (customers.map Point.id).Nodup) :
    ∀ cl ∈ clusterCustomers dist rnd customers numDays (some hb), cl.points ≠ [] := by
  intro cl hcl
  unfold clusterCustomers at hcl
  rw [if_neg (by omega)] at hcl
  by_cases hdeg : (customers.length : ℤ) ≤ numDays
  · rw [if_pos hdeg] at hcl
    rcases mapIdxFrom_mem _ customers 0 cl hcl with ⟨i, p, _, hceq⟩
    rw [hceq]
    simp
  · rw [if_neg hdeg] at hcl
    have hpos : 0 < numDays.toNat := by omega
    refine balanceClustersByDriveTime_nonempty dist hb _ (customers.map Point.id)
      hnd ⟨rfl, ?_⟩ ?_ cl hcl
    · intro x hx
      rw [hasPointId_iff]
      have hperm := (performKMeans_points_perm dist rnd customers numDays.toNat
        (some hb) hpos).map Point.id
      exact hperm.mem_iff.mpr hx
    · rw [performKMeans_length, List.length_map]
      omega

/-- Witness for C2 at three visits, two days and a home base at the
origin. -/
theorem c2_witness :
    ((1 : ℤ) ≤ 2 ∧
      (2 : ℤ) ≤ (([⟨0, 0, 1/5⟩, ⟨1, 0, 2⟩, ⟨2, 0, 2⟩] : List (Point ℚ)).length : ℤ) ∧
      (([⟨0, 0, 1/5⟩, ⟨1, 0, 2⟩, ⟨2, 0, 2⟩] : List (Point ℚ)).map Point.id).Nodup) ∧
    ∀ cl ∈ clusterCustomers flatDist (fun _ => (1/2 : ℚ))
        [⟨0, 0, 1/5⟩, ⟨1, 0, 2⟩, ⟨2, 0, 2⟩] 2 (some ⟨0, 0⟩), cl.points ≠ [] :=
  ⟨⟨by decide, by decide, by decide⟩,
    c2_nonempty_with_homebase flatDist (fun _ => (1/2 : ℚ)) _ 2 ⟨0, 0⟩
      (by decide) (by decide) (by decide)⟩

/-- C2 counterexample to the claim as stated: without a home base the
balancing phase returns early and the empty-cluster repair never runs, so
three coincident visits with two days (the random draws all landing on the
collapsed bounding box) leave bucket 1 empty even though `len(visits) ≥
numDays ≥ 1` and the ids are duplicate-free. -/
theorem c2_counterexample :
    ¬ ∀ (rnd : ℕ → ℝ) (customers : List (Point ℝ)) (numDays : ℤ)
        (homeBase : Option (Coord ℝ)),
        1 ≤ numDays → numDays ≤ (customers.length : ℤ) →
        (customers.map Point.id).Nodup →
        ∀ cl ∈ clusterCustomers calculateDistance rnd customers numDays homeBase,
          cl.points ≠ [] := by
  intro h
  have hrun := coincident_two_day_run calculateDistance (calculateDistance_self 0 0)
  have hmem : (⟨1, ⟨0, 0⟩, []⟩ : Cluster ℝ) ∈
      clusterCustomers calculateDistance (fun _ => 0)
        [⟨0, 0, 0⟩, ⟨1, 0, 0⟩, ⟨2, 0, 0⟩] 2 none := by
    rw [hrun]
    simp
  exact h (fun _ => 0) [⟨0, 0, 0⟩, ⟨1, 0, 0⟩, ⟨2, 0, 0⟩] 2 none
    (by norm_num) (by norm_num) (by simp) _ hmem rfl

/-- C4 (amended): what the balancer actually does.  First, the trigger is a
per-bucket band test against the fixed initial target: when every bucket's
drive time lies within `target ± tol` (and no bucket is empty), the whole
balancing phase is the identity — no max/min comparison is involved.
Second, the moved unit is always the scanned bucket's *first* customer in
iteration order paired with the first strictly-lighter (or strictly-heavier)
other bucket; no hypothetical post-move headroom is evaluated. -/
theorem c4_band_rule :
    (∀ (α : Type) [LinearOrderedField α] (dist : α → α → α → α → α)
        (hb : Coord α) (cs : List (Cluster α)),
        (∀ cl ∈ cs,
          calculateTotalDriveTime dist hb cs / (cs.length : α) -
              calculateTotalDriveTime dist hb cs / (cs.length : α) * (15 / 100) ≤
            calculateClusterDriveTime dist hb cl ∧
          calculateClusterDriveTime dist hb cl ≤
            calculateTotalDriveTime dist hb cs / (cs.length : α) +
              calculateTotalDriveTime dist hb cs / (cs.length : α) * (15 / 100) ∧
          cl.points ≠ []) →
        balanceClustersByDriveTime dist (some hb) cs = cs) ∧
    (∀ (α : Type) [LinearOrderedField α] (dist : α → α → α → α → α)
        (hb : Coord α) (cl : Cluster α) (cs : List (Cluster α)) (lighten : Bool),
        findBestCustomerToMove dist hb cl cs lighten =
          (scanTargetAux dist hb cl.id (calculateClusterDriveTime dist hb cl)
              lighten 0 cs).bind
            (fun j => cl.points.head?.map fun c => (c, j))) := by
  constructor
  · intro α _ dist hb cs hband
    unfold balanceClustersByDriveTime
    dsimp only
    rw [show (20 : ℕ) = 19 + 1 from rfl,
      balanceLoop_stop dist hb _ _ 19 cs
        (balancePass_id_of_band dist hb _ _ cs fun cl hcl =>
          ⟨(hband cl hcl).1, (hband cl hcl).2.1⟩)]
    exact balanceEmptyClusters_id_of_nonempty cs fun cl hcl => (hband cl hcl).2.2
  · intro α _ dist hb cl cs lighten
    exact findBest_head_scan dist hb cl cs lighten

/-- C4 counterexample to the spec's max/min trigger: five singleton buckets
whose pairwise drive-time differences all stay within twice the tolerance
(so the claimed `max − min > 2·tol` trigger never fires), yet one balancing
pass still attempts a move (the `balanced` flag comes back `false`), because
bucket 0 alone is below the per-bucket band the code actually tests. -/
theorem c4_counterexample :
    (∀ ci ∈ ([⟨0, ⟨0, 19/20⟩, [⟨0, 0, 19/20⟩]⟩, ⟨1, ⟨0, 51/40⟩, [⟨1, 0, 51/40⟩]⟩,
        ⟨2, ⟨0, 51/40⟩, [⟨2, 0, 51/40⟩]⟩, ⟨3, ⟨0, 51/40⟩, [⟨3, 0, 51/40⟩]⟩,
        ⟨4, ⟨0, 51/40⟩, [⟨4, 0, 51/40⟩]⟩] : List (Cluster ℚ)),
      ∀ cj ∈ ([⟨0, ⟨0, 19/20⟩, [⟨0, 0, 19/20⟩]⟩, ⟨1, ⟨0, 51/40⟩, [⟨1, 0, 51/40⟩]⟩,
          ⟨2, ⟨0, 51/40⟩, [⟨2, 0, 51/40⟩]⟩, ⟨3, ⟨0, 51/40⟩, [⟨3, 0, 51/40⟩]⟩,
          ⟨4, ⟨0, 51/40⟩, [⟨4, 0, 51/40⟩]⟩] : List (Cluster ℚ)),
        calculateClusterDriveTime flatDist ⟨0, 0⟩ ci -
            calculateClusterDriveTime flatDist ⟨0, 0⟩ cj ≤
          2 * (calculateTotalDriveTime flatDist ⟨0, 0⟩
              [⟨0, ⟨0, 19/20⟩, [⟨0, 0, 19/20⟩]⟩, ⟨1, ⟨0, 51/40⟩, [⟨1, 0, 51/40⟩]⟩,
               ⟨2, ⟨0, 51/40⟩, [⟨2, 0, 51/40⟩]⟩, ⟨3, ⟨0, 51/40⟩, [⟨3, 0, 51/40⟩]⟩,
               ⟨4, ⟨0, 51/40⟩, [⟨4, 0, 51/40⟩]⟩] / ((5 : ℕ) : ℚ) * (15 / 100))) ∧
    (balancePass flatDist ⟨0, 0⟩
        (calculateTotalDriveTime flatDist ⟨0, 0⟩
            [⟨0, ⟨0, 19/20⟩, [⟨0, 0, 19/20⟩]⟩, ⟨1, ⟨0, 51/40⟩, [⟨1, 0, 51/40⟩]⟩,
             ⟨2, ⟨0, 51/40⟩, [⟨2, 0, 51/40⟩]⟩, ⟨3, ⟨0, 51/40⟩, [⟨3, 0, 51/40⟩]⟩,
             ⟨4, ⟨0, 51/40⟩, [⟨4, 0, 51/40⟩]⟩] / ((5 : ℕ) : ℚ))
        (calculateTotalDriveTime flatDist ⟨0, 0⟩
            [⟨0, ⟨0, 19/20⟩, [⟨0, 0, 19/20⟩]⟩, ⟨1, ⟨0, 51/40⟩, [⟨1, 0, 51/40⟩]⟩,
             ⟨2, ⟨0, 51/40⟩, [⟨2, 0, 51/40⟩]⟩, ⟨3, ⟨0, 51/40⟩, [⟨3, 0, 51/40⟩]⟩,
             ⟨4, ⟨0, 51/40⟩, [⟨4, 0, 51/40⟩]⟩] / ((5 : ℕ) : ℚ) * (15 / 100))
        [⟨0, ⟨0, 19/20⟩, [⟨0, 0, 19/20⟩]⟩, ⟨1, ⟨0, 51/40⟩, [⟨1, 0, 51/40⟩]⟩,
         ⟨2, ⟨0, 51/40⟩, [⟨2, 0, 51/40⟩]⟩, ⟨3, ⟨0, 51/40⟩, [⟨3, 0, 51/40⟩]⟩,
         ⟨4, ⟨0, 51/40⟩, [⟨4, 0, 51/40⟩]⟩]).2 = false := by
  exact ⟨by decide, by decide⟩

end ConcreteRuns
